import Mathlib

/-!
# khan-router: a shallow embedding of the registration / dispatch engine

Sources embedded: `pattern.go` (the normaliser `getValidPattern`), `route.go`
(`Route`, `Route.Middleware`, the global `routesMap`), `router.go`
(`NewRouter`, `Router.ServeHTTP`, `Router.getHandler`, `methodNotAllowedHandler`,
`Router.RegisterRoute*`, `registerRoute`) and `groupRoute.go` (`GroupRoute`,
`RegisterGroupRoute`, `GroupRoute.RegisterRoute*`).

Modelling conventions.
* A Go `string` is a list of characters (`GoString`); the inputs considered are
  valid UTF-8, so that a rune of Go is a `Char`.
* An `http.Handler` is a value of an arbitrary type `H`; a middleware
  `func(http.Handler) http.Handler` is a function `H → H`.
* A panic is an explicit outcome that carries the panic message and the state
  reached when the panic was raised.
* Pointers to `Route` objects are indices into a heap of routes; the slices of
  middleware are triples (backing array, length, capacity) over a heap of
  backing arrays, so that the sharing produced by `append` is visible.
* The code is executed sequentially; `routesMutex` is not modelled.
-/

namespace KhanRouter

/-! ## Go strings and the functions of package `strings` used by the code -/

/-- A Go string, as the list of its characters. -/
abbrev GoString := List Char

/-- Go `unicode.IsSpace`: the code points with the Unicode White_Space property. -/
def unicodeIsSpace (c : Char) : Bool :=
  let n := c.toNat
  (9 ≤ n && n ≤ 13) || n == 32 || n == 133 || n == 160 || n == 5760 ||
  (8192 ≤ n && n ≤ 8202) || n == 8232 || n == 8233 || n == 8239 || n == 8287 || n == 12288

/-- Go `strings.TrimLeftFunc`: drop the longest prefix of characters satisfying `f`. -/
def stringsTrimLeftFunc (s : GoString) (f : Char → Bool) : GoString :=
  s.dropWhile f

/-- Go `strings.TrimRightFunc`: drop the longest suffix of characters satisfying `f`. -/
def stringsTrimRightFunc (s : GoString) (f : Char → Bool) : GoString :=
  (s.reverse.dropWhile f).reverse

/-- Go `strings.TrimSpace`: remove leading and trailing white space. -/
def stringsTrimSpace (s : GoString) : GoString :=
  stringsTrimRightFunc (stringsTrimLeftFunc s unicodeIsSpace) unicodeIsSpace

/-- Go `strings.Trim(s, cutset)`: remove leading and trailing characters of `cutset`. -/
def stringsTrim (s : GoString) (cutset : GoString) : GoString :=
  stringsTrimLeftFunc (stringsTrimRightFunc s (fun c => decide (c ∈ cutset)))
    (fun c => decide (c ∈ cutset))

/-- Go `strings.Contains(s, substr)`: `substr` occurs in `s`. -/
def stringsContains : GoString → GoString → Bool
  | [], substr => substr.isPrefixOf []
  | c :: cs, substr => substr.isPrefixOf (c :: cs) || stringsContains cs substr

/-- Go `strings.Split(s, sep)` for a separator `sep` of one character: the
pieces of `s` between the occurrences of `sep` (always at least one piece). -/
def stringsSplit : GoString → Char → List GoString
  | [], _ => [[]]
  | c :: cs, sep =>
    if c = sep then [] :: stringsSplit cs sep
    else
      match stringsSplit cs sep with
      | [] => [[c]]
      | part :: parts => (c :: part) :: parts

/-- Go `strings.Join(elems, sep)`. -/
def stringsJoin (elems : List GoString) (sep : GoString) : GoString :=
  sep.intercalate elems

/-! ## pattern.go -/

/-- The value `getValidPattern` panics with: `"httpRouter: invalid pattern '%s'"`. -/
def invalidPatternMsg (pattern : GoString) : GoString :=
  "httpRouter: invalid pattern '".toList ++ pattern ++ "'".toList

/-- Go `getValidPattern` (pattern.go): `.error` is the panic of `log.Panicf`. -/
def getValidPattern (pattern : GoString) : Except GoString GoString :=
  if stringsTrimSpace pattern = [] then
    .ok []
  else if stringsContains pattern [' '] then
    .error (invalidPatternMsg pattern)
  else
    let pattern := stringsTrim pattern ['/']
    let parts := stringsSplit pattern '/'
    let cleanParts := parts.filter (fun part => part ≠ [])
    .ok ('/' :: stringsJoin cleanParts ['/'])

/-! ## Go maps, slices and the program state -/

/-- A Go `map[string]V`, as an association list with at most one entry per key. -/
structure GoMap (V : Type) where
  entries : List (GoString × V)

/-- The result of `make(map[string]V)`. -/
def GoMap.empty {V : Type} : GoMap V := ⟨[]⟩

/-- Go `v, ok := m[k]`. -/
def GoMap.get {V : Type} (m : GoMap V) (k : GoString) : Option V :=
  (m.entries.find? (fun e => e.1 = k)).map Prod.snd

/-- Go `m[k] = v`. -/
def GoMap.set {V : Type} (m : GoMap V) (k : GoString) (v : V) : GoMap V :=
  ⟨(k, v) :: m.entries.filter (fun e => e.1 ≠ k)⟩

/-- The keys of a map. -/
def GoMap.keys {V : Type} (m : GoMap V) : List GoString :=
  m.entries.map Prod.fst

/-- A Go slice header: the backing array it points to, its length and its capacity. -/
structure Slice where
  array : Nat
  len : Nat
  cap : Nat
  deriving DecidableEq

/-- The nil slice. -/
def Slice.nil : Slice := ⟨0, 0, 0⟩

/-- Go `GroupRoute` (groupRoute.go). -/
structure GroupRoute where
  pattern : GoString
  middlewares : Slice
  deriving DecidableEq

/-- Go `Route` (route.go). -/
structure Route (H : Type) where
  handler : H
  original : H
  pattern : GoString
  method : GoString
  middlewares : Slice
  group : Option GroupRoute

/-- Go `Router` (router.go). -/
structure Router (H : Type) where
  NotFoundHandler : H
  MethodNotAllowedHandler : H

/-- The part of an `*http.Request` read by the router: `URL.Path` and `Method`. -/
structure Request where
  path : GoString
  method : GoString

/-- The route table `routesMap`: pattern ↦ method ↦ pointer to a `Route`. -/
abbrev RouteTable := GoMap (GoMap Nat)

/-- The state of the program: the global `routesMap`, the heap of `Route`
objects (a `*Route` is an index into `routes`) and the heap of backing arrays
of the middleware slices (`nextArray` is the next free array). -/
structure State (H : Type) where
  routesMap : RouteTable
  routes : List (Route H)
  arrays : Nat → List (H → H)
  nextArray : Nat

/-- The state at program start: `routesMap = make(...)`, nothing allocated. -/
def State.init (H : Type) : State H :=
  { routesMap := GoMap.empty, routes := [], arrays := fun _ => [], nextArray := 0 }

/-- The elements `sl[0], ..., sl[len-1]` of a slice. -/
def State.elems {H : Type} (s : State H) (sl : Slice) : List (H → H) :=
  (s.arrays sl.array).take sl.len

/-- The outcome of a call: it returns a value, or it panics; either way the
state reached is kept. -/
inductive Outcome (σ α : Type) where
  | ret (val : α) (state : σ)
  | panic (msg : GoString) (state : σ)

/-- The call panicked. -/
def Outcome.failed {σ α : Type} : Outcome σ α → Bool
  | .ret _ _ => false
  | .panic _ _ => true

/-- The state after the call. -/
def Outcome.state {σ α : Type} : Outcome σ α → σ
  | .ret _ s => s
  | .panic _ s => s

/-- The value returned, if the call returned. -/
def Outcome.val? {σ α : Type} : Outcome σ α → Option α
  | .ret v _ => some v
  | .panic _ _ => none

/-- The slice passed for a variadic parameter by a call `f(m₁, ..., mₙ)`: nil
when there is no argument, else a fresh array of length and capacity `n`. -/
def State.variadic {H : Type} (s : State H) (m : List (H → H)) : Slice × State H :=
  match m with
  | [] => (Slice.nil, s)
  | _ :: _ =>
    (⟨s.nextArray, m.length, m.length⟩,
      { s with
        arrays := fun a => if a = s.nextArray then m else s.arrays a
        nextArray := s.nextArray + 1 })

/-- Go `append(sl, m...)`. When the capacity suffices the elements are written
into the backing array of `sl`, after its first `len` elements; otherwise a new
array is allocated, of the capacity `growCap cap (len + n)` chosen by the
runtime, and receives the elements of `sl` followed by `m`. -/
def State.append {H : Type} (growCap : Nat → Nat → Nat) (s : State H) (sl : Slice)
    (m : List (H → H)) : Slice × State H :=
  if sl.len + m.length ≤ sl.cap then
    let old := s.arrays sl.array
    (⟨sl.array, sl.len + m.length, sl.cap⟩,
      { s with
        arrays := fun a =>
          if a = sl.array then old.take sl.len ++ m ++ old.drop (sl.len + m.length)
          else s.arrays a })
  else
    (⟨s.nextArray, sl.len + m.length, growCap sl.cap (sl.len + m.length)⟩,
      { s with
        arrays := fun a => if a = s.nextArray then s.elems sl ++ m else s.arrays a
        nextArray := s.nextArray + 1 })

/-- The growth rule of the Go runtime (`growslice`) for small slices, before
rounding up to an allocation size class: the needed capacity when it exceeds
twice the old one, else twice the old capacity. -/
def goGrowCap (oldCap needed : Nat) : Nat :=
  if 2 * oldCap < needed then needed else 2 * oldCap

/-! ## route.go -/

/-- The loop `for i := len(ms) - 1; i >= 0; i-- { handler = ms[i](handler) }`;
the first argument is `i + 1`. -/
def wrapLoop {H : Type} (middlewares : List (H → H)) : Nat → H → H
  | 0, handler => handler
  | i + 1, handler =>
    match middlewares[i]? with
    | some mw => wrapLoop middlewares i (mw handler)
    | none => wrapLoop middlewares i handler

/-- The value of a nil pointer dereference panic. -/
def nilDerefMsg : GoString :=
  "runtime error: invalid memory address or nil pointer dereference".toList

/-- Go `(*Route).Middleware(m...)` (route.go); `m` holds the elements of the
argument slice. -/
def Route.Middleware {H : Type} (growCap : Nat → Nat → Nat) (s : State H) (r : Nat)
    (m : List (H → H)) : Outcome (State H) Unit :=
  match s.routes[r]? with
  | none => .panic nilDerefMsg s
  | some route =>
    let handler := route.original
    let appended := s.append growCap route.middlewares m
    let middlewares := appended.1
    let s1 := appended.2
    let handler := wrapLoop (s1.elems middlewares) middlewares.len handler
    .ret () { s1 with
      routes := s1.routes.set r { route with handler := handler, middlewares := middlewares } }

/-! ## router.go -/

/-- Go `http.MethodGet`. -/
def MethodGet : GoString := ['G', 'E', 'T']
/-- Go `http.MethodPost`. -/
def MethodPost : GoString := ['P', 'O', 'S', 'T']
/-- Go `http.MethodPut`. -/
def MethodPut : GoString := ['P', 'U', 'T']
/-- Go `http.MethodDelete`. -/
def MethodDelete : GoString := ['D', 'E', 'L', 'E', 'T', 'E']
/-- Go `http.MethodOptions`. -/
def MethodOptions : GoString := ['O', 'P', 'T', 'I', 'O', 'N', 'S']

/-- Go `(*Router).getHandler` (router.go). -/
def Router.getHandler {H : Type} (s : State H) (r : Router H) (request : Request) :
    Except GoString H :=
  match s.routesMap.get request.path with
  | none => .ok r.NotFoundHandler
  | some routes =>
    match routes.get request.method with
    | none => .ok r.MethodNotAllowedHandler
    | some route =>
      match s.routes[route]? with
      | some rt => .ok rt.handler
      | none => .error nilDerefMsg

/-- The value `registerRoute` panics with: `"route '%s %s' already exists"`. -/
def routeExistsMsg (method pattern : GoString) : GoString :=
  "route '".toList ++ method ++ " ".toList ++ pattern ++ "' already exists".toList

/-- Go `registerRoute` (router.go), on the route table. -/
def registerRoute (routesMap : RouteTable) (pattern method : GoString) (route : Nat) :
    Outcome RouteTable Unit :=
  let routeOk :=
    match routesMap.get pattern with
    | some routes => (routes.get method).isSome
    | none => false
  if routeOk then
    .panic (routeExistsMsg method pattern) routesMap
  else
    let routes : GoMap Nat := GoMap.empty
    let routes := routes.set method route
    .ret () (routesMap.set pattern routes)

/-- The common body of `(*Router).RegisterRouteGET`, `...POST`, `...PUT`,
`...DELETE` and `...OPTIONS` (router.go), which differ in the method only. -/
def Router.RegisterRoute {H : Type} (method : GoString) (s : State H) (pattern : GoString)
    (handler : H) : Outcome (State H) Nat :=
  match getValidPattern pattern with
  | .error msg => .panic msg s
  | .ok pattern =>
    let route := s.routes.length
    let newRoute : Route H := {
      handler := handler, original := handler, pattern := pattern, method := method,
      middlewares := Slice.nil, group := none }
    let s1 := { s with routes := s.routes ++ [newRoute] }
    match registerRoute s1.routesMap pattern method route with
    | .panic msg t => .panic msg { s1 with routesMap := t }
    | .ret _ t => .ret route { s1 with routesMap := t }

/-- Go `(*Router).RegisterRouteGET`. -/
def Router.RegisterRouteGET {H : Type} (s : State H) (pattern : GoString) (handler : H) :
    Outcome (State H) Nat :=
  Router.RegisterRoute MethodGet s pattern handler

/-- Go `(*Router).RegisterRoutePOST`. -/
def Router.RegisterRoutePOST {H : Type} (s : State H) (pattern : GoString) (handler : H) :
    Outcome (State H) Nat :=
  Router.RegisterRoute MethodPost s pattern handler

/-- Go `(*Router).RegisterRoutePUT`. -/
def Router.RegisterRoutePUT {H : Type} (s : State H) (pattern : GoString) (handler : H) :
    Outcome (State H) Nat :=
  Router.RegisterRoute MethodPut s pattern handler

/-- Go `(*Router).RegisterRouteDELETE`. -/
def Router.RegisterRouteDELETE {H : Type} (s : State H) (pattern : GoString) (handler : H) :
    Outcome (State H) Nat :=
  Router.RegisterRoute MethodDelete s pattern handler

/-- Go `(*Router).RegisterRouteOPTIONS`. -/
def Router.RegisterRouteOPTIONS {H : Type} (s : State H) (pattern : GoString) (handler : H) :
    Outcome (State H) Nat :=
  Router.RegisterRoute MethodOptions s pattern handler

/-! ## groupRoute.go -/

/-- Go `RegisterGroupRoute(pattern, m...)` (groupRoute.go): the group keeps the
argument slice `m` itself. -/
def RegisterGroupRoute (pattern : GoString) (m : Slice) : Except GoString GroupRoute :=
  match getValidPattern pattern with
  | .error msg => .error msg
  | .ok p => .ok { pattern := p, middlewares := m }

/-- Go `(*GroupRoute).RegisterGroupRoute(pattern, m...)`; `m` holds the elements
of the argument slice. -/
def GroupRoute.RegisterGroupRoute {H : Type} (growCap : Nat → Nat → Nat) (s : State H)
    (gr : GroupRoute) (pattern : GoString) (m : List (H → H)) :
    Outcome (State H) GroupRoute :=
  match getValidPattern pattern with
  | .error msg => .panic msg s
  | .ok p =>
    let appended := s.append growCap gr.middlewares m
    .ret { pattern := gr.pattern ++ p, middlewares := appended.1 } appended.2

/-- The common body of `(*GroupRoute).RegisterRouteGET`, `...POST`, `...PUT`,
`...DELETE` and `...OPTIONS` (groupRoute.go), which differ in the method only. -/
def GroupRoute.RegisterRoute {H : Type} (method : GoString) (s : State H) (gr : GroupRoute)
    (pattern : GoString) (handler : H) : Outcome (State H) Nat :=
  match getValidPattern pattern with
  | .error msg => .panic msg s
  | .ok p =>
    let pattern := gr.pattern ++ p
    let wrapped := wrapLoop (s.elems gr.middlewares) gr.middlewares.len handler
    let route := s.routes.length
    let newRoute : Route H := {
      handler := wrapped, original := handler, pattern := pattern, method := method,
      middlewares := gr.middlewares, group := some gr }
    let s1 := { s with routes := s.routes ++ [newRoute] }
    match registerRoute s1.routesMap pattern method route with
    | .panic msg t => .panic msg { s1 with routesMap := t }
    | .ret _ t => .ret route { s1 with routesMap := t }

/-- Go `(*GroupRoute).RegisterRouteGET`. -/
def GroupRoute.RegisterRouteGET {H : Type} (s : State H) (gr : GroupRoute)
    (pattern : GoString) (handler : H) : Outcome (State H) Nat :=
  GroupRoute.RegisterRoute MethodGet s gr pattern handler

/-- Go `(*GroupRoute).RegisterRoutePOST`. -/
def GroupRoute.RegisterRoutePOST {H : Type} (s : State H) (gr : GroupRoute)
    (pattern : GoString) (handler : H) : Outcome (State H) Nat :=
  GroupRoute.RegisterRoute MethodPost s gr pattern handler

/-- Go `(*GroupRoute).RegisterRoutePUT`. -/
def GroupRoute.RegisterRoutePUT {H : Type} (s : State H) (gr : GroupRoute)
    (pattern : GoString) (handler : H) : Outcome (State H) Nat :=
  GroupRoute.RegisterRoute MethodPut s gr pattern handler

/-- Go `(*GroupRoute).RegisterRouteDELETE`. -/
def GroupRoute.RegisterRouteDELETE {H : Type} (s : State H) (gr : GroupRoute)
    (pattern : GoString) (handler : H) : Outcome (State H) Nat :=
  GroupRoute.RegisterRoute MethodDelete s gr pattern handler

/-- Go `(*GroupRoute).RegisterRouteOPTIONS`. -/
def GroupRoute.RegisterRouteOPTIONS {H : Type} (s : State H) (gr : GroupRoute)
    (pattern : GoString) (handler : H) : Outcome (State H) Nat :=
  GroupRoute.RegisterRoute MethodOptions s gr pattern handler

/-! ## Vocabulary of the properties -/

/-- The route the table holds for the pair `(pattern, method)`, if any. -/
def GoMap.lookup (t : RouteTable) (pattern method : GoString) : Option Nat :=
  match t.get pattern with
  | some routes => routes.get method
  | none => none

/-- A sequence of calls `registerRoute(p, m, r)`, each run in the table left by
the previous one (a panic leaves the table as it found it). -/
def registerSeq (t : RouteTable) : List (GoString × GoString × Nat) → RouteTable
  | [] => t
  | (p, m, r) :: rest => registerSeq (registerRoute t p m r).state rest

/-- Handlers that record what runs: the trace of the labels in execution order. -/
abbrev Trace := List Nat

/-- A middleware that records its label and then calls the next handler. -/
def logMw (k : Nat) : Trace → Trace := fun next => k :: next

/-- A router whose fallbacks record 404 and 405. -/
def traceRouter : Router Trace :=
  { NotFoundHandler := [404], MethodNotAllowedHandler := [405] }

/-- The state after `RegisterRouteGET("/x", h)` on a fresh table, `h` recording 0. -/
def stGet : State Trace :=
  (Router.RegisterRouteGET (State.init Trace) ['/', 'x'] [0]).state

/-- The state after `RegisterRouteGET("/x", h)` and then
`RegisterRoutePOST("/x", h')`, `h'` recording 7. -/
def stGetPost : State Trace :=
  (Router.RegisterRoutePOST stGet ['/', 'x'] [7]).state

/-- The composition `M₁(M₂(...(Mₙ(h))))`: the first middleware is the outermost. -/
def firstOutermost {H : Type} (chain : List (H → H)) (h : H) : H :=
  chain.foldr (fun mw inner => mw inner) h

/-- The composition `Mₙ(...(M₂(M₁(h))))`: the last middleware is the outermost. -/
def lastOutermost {H : Type} (chain : List (H → H)) (h : H) : H :=
  chain.foldl (fun inner mw => mw inner) h

/-- The state after `r := RegisterRouteGET("/x", h)`, `r.Middleware(M1)` and
`r.Middleware(M2)`, where `Mk` records `k` and `h` records 0. -/
def stTwoAppends : State Trace :=
  (Route.Middleware goGrowCap (Route.Middleware goGrowCap stGet 0 [logMw 1]).state 0
    [logMw 2]).state

/-- The group made by `RegisterGroupRoute("/a", M1)` and the state after the call. -/
def parentA : GroupRoute × State Trace :=
  (⟨['/', 'a'], ((State.init Trace).variadic [logMw 1]).1⟩,
    ((State.init Trace).variadic [logMw 1]).2)

/-- The outcome of `parentA.RegisterGroupRoute("/b", M2)`. -/
def subgroupAB : Outcome (State Trace) GroupRoute :=
  GroupRoute.RegisterGroupRoute goGrowCap parentA.2 parentA.1 ['/', 'b'] [logMw 2]

/-- The outcome of registering GET "/c" with `h` through the subgroup of `subgroupAB`. -/
def routeABC : Outcome (State Trace) Nat :=
  GroupRoute.RegisterRouteGET subgroupAB.state ⟨['/', 'a', '/', 'b'], ⟨1, 2, 2⟩⟩ ['/', 'c'] [0]

/-- The group made by `RegisterGroupRoute("/a", M1, M2)` and the state after the call. -/
def parentA12 : GroupRoute × State Trace :=
  (⟨['/', 'a'], ((State.init Trace).variadic [logMw 1, logMw 2]).1⟩,
    ((State.init Trace).variadic [logMw 1, logMw 2]).2)

/-- The outcome of `sub := parentA12.RegisterGroupRoute("/b", M3)`. -/
def subgroupA12B3 : Outcome (State Trace) GroupRoute :=
  GroupRoute.RegisterGroupRoute goGrowCap parentA12.2 parentA12.1 ['/', 'b'] [logMw 3]

/-- The group `sub` returned in `subgroupA12B3`: prefix "/a/b", chain of
length 3 in a backing array of capacity 4. -/
def subA12B3 : GroupRoute := ⟨['/', 'a', '/', 'b'], ⟨1, 3, 4⟩⟩

/-- The state after `r0 := sub.RegisterRouteGET("/x", h)` and
`r1 := sub.RegisterRouteGET("/y", h)`. -/
def stSiblings : State Trace :=
  (GroupRoute.RegisterRouteGET
    (GroupRoute.RegisterRouteGET subgroupA12B3.state subA12B3 ['/', 'x'] [0]).state
    subA12B3 ['/', 'y'] [0]).state

/-- The state after, further, `r0.Middleware(M4)`. -/
def stSiblings4 : State Trace :=
  (Route.Middleware goGrowCap stSiblings 0 [logMw 4]).state

/-- The state after, further, `r1.Middleware(M5)`. -/
def stSiblings45 : State Trace :=
  (Route.Middleware goGrowCap stSiblings4 1 [logMw 5]).state

/-- The state after, further, `r0.Middleware()`. -/
def stSiblings45Rebuilt : State Trace :=
  (Route.Middleware goGrowCap stSiblings45 0 []).state

/-- The invariant of a pattern: it begins with exactly one "/", it does not end
with "/" unless it is the root "/", and it contains no "//". -/
def wellFormedPattern (p : GoString) : Bool :=
  (p.head? == some '/' && p.tail.head? != some '/') &&
  (p == ['/'] || p.getLast? != some '/') &&
  !stringsContains p ['/', '/']

/-- The raw pattern is normalised to the root "/". -/
def normalisesToRoot (raw : GoString) : Bool :=
  match getValidPattern raw with
  | .ok p => p == ['/']
  | .error _ => false

/-- The five registration methods of `Router` and of `GroupRoute`. -/
inductive Verb where
  | GET
  | POST
  | PUT
  | DELETE
  | OPTIONS
  deriving DecidableEq

/-- The method a registration method registers. -/
def Verb.method : Verb → GoString
  | .GET => MethodGet
  | .POST => MethodPost
  | .PUT => MethodPut
  | .DELETE => MethodDelete
  | .OPTIONS => MethodOptions

/-- The registration method of `Router` for a verb. -/
def Verb.onRouter {H : Type} : Verb → State H → GoString → H → Outcome (State H) Nat
  | .GET => Router.RegisterRouteGET
  | .POST => Router.RegisterRoutePOST
  | .PUT => Router.RegisterRoutePUT
  | .DELETE => Router.RegisterRouteDELETE
  | .OPTIONS => Router.RegisterRouteOPTIONS

/-- The registration method of `GroupRoute` for a verb. -/
def Verb.onGroup {H : Type} :
    Verb → State H → GroupRoute → GoString → H → Outcome (State H) Nat
  | .GET => GroupRoute.RegisterRouteGET
  | .POST => GroupRoute.RegisterRoutePOST
  | .PUT => GroupRoute.RegisterRoutePUT
  | .DELETE => GroupRoute.RegisterRouteDELETE
  | .OPTIONS => GroupRoute.RegisterRouteOPTIONS

/-- A call of the registration surface made by the program that uses the
router. Groups are named by their rank of creation, routes by their pointer. -/
inductive Call (H : Type) where
  | routerRoute (v : Verb) (pattern : GoString) (handler : H)
  | newGroup (pattern : GoString) (m : List (H → H))
  | subGroup (g : Nat) (pattern : GoString) (m : List (H → H))
  | groupRoute (g : Nat) (v : Verb) (pattern : GoString) (handler : H)
  | middleware (r : Nat) (m : List (H → H))

/-- The state of the router together with the groups the caller has created. -/
structure Env (H : Type) where
  state : State H
  groups : List GroupRoute

/-- The environment at program start. -/
def Env.init (H : Type) : Env H := { state := State.init H, groups := [] }

/-- One call; `none` when the call panics (or names a group that does not exist). -/
def Call.run {H : Type} (growCap : Nat → Nat → Nat) (e : Env H) : Call H → Option (Env H)
  | .routerRoute v pattern handler =>
    match v.onRouter e.state pattern handler with
    | .ret _ s => some { e with state := s }
    | .panic _ _ => none
  | .newGroup pattern m =>
    match RegisterGroupRoute pattern (e.state.variadic m).1 with
    | .ok gr => some { state := (e.state.variadic m).2, groups := e.groups ++ [gr] }
    | .error _ => none
  | .subGroup g pattern m =>
    match e.groups[g]? with
    | none => none
    | some gr =>
      match GroupRoute.RegisterGroupRoute growCap e.state gr pattern m with
      | .ret sub s => some { state := s, groups := e.groups ++ [sub] }
      | .panic _ _ => none
  | .groupRoute g v pattern handler =>
    match e.groups[g]? with
    | none => none
    | some gr =>
      match v.onGroup e.state gr pattern handler with
      | .ret _ s => some { e with state := s }
      | .panic _ _ => none
  | .middleware r m =>
    match Route.Middleware growCap e.state r m with
    | .ret _ s => some { e with state := s }
    | .panic _ _ => none

/-- A sequence of calls, all of which succeed. -/
def runCalls {H : Type} (growCap : Nat → Nat → Nat) (e : Env H) :
    List (Call H) → Option (Env H)
  | [] => some e
  | c :: rest =>
    match c.run growCap e with
    | some e1 => runCalls growCap e1 rest
    | none => none

/-- The call passes, as a group prefix or as a pattern registered through a
group, a string that is normalised to the root "/". -/
def Call.groupRoot {H : Type} : Call H → Bool
  | .routerRoute _ _ _ => false
  | .newGroup pattern _ => normalisesToRoot pattern
  | .subGroup _ pattern _ => normalisesToRoot pattern
  | .groupRoute _ _ pattern _ => normalisesToRoot pattern
  | .middleware _ _ => false

/-- The string "/s₁/s₂/.../sₙ" made of the segments `s₁, ..., sₙ`. -/
def slashJoin : List GoString → GoString
  | [] => []
  | seg :: rest => '/' :: seg ++ slashJoin rest

/-- Every segment is non-empty and has no "/". -/
def GoodSegments (segs : List GoString) : Prop :=
  ∀ seg ∈ segs, seg ≠ [] ∧ '/' ∉ seg

/-- The string is "/s₁/.../sₙ" for `n ≥ 1` non-empty segments without "/". -/
def IsJoined (p : GoString) : Prop :=
  ∃ segs, segs ≠ [] ∧ GoodSegments segs ∧ p = slashJoin segs

/-- The invariant carried by a sequence of calls: the prefix of every group is
empty or made of segments, and every key of the route table and every
`Route.pattern` is empty or well formed. -/
def Env.PatternsOk {H : Type} (e : Env H) : Prop :=
  (∀ gr ∈ e.groups, gr.pattern = [] ∨ IsJoined gr.pattern) ∧
  (∀ k ∈ e.state.routesMap.keys, k = [] ∨ wellFormedPattern k = true) ∧
  (∀ rt ∈ e.state.routes, rt.pattern = [] ∨ wellFormedPattern rt.pattern = true)

/-- The non-empty pieces of a string between its "/": its segments. -/
def pathSegments (s : GoString) : List GoString :=
  (stringsSplit s '/').filter (fun part => part ≠ [])

/-! ## net/http: the response written by the default fallback handlers -/

/-- Go `http.StatusNotFound`. -/
def StatusNotFound : Nat := 404
/-- Go `http.StatusMethodNotAllowed`. -/
def StatusMethodNotAllowed : Nat := 405
/-- Go `http.StatusConflict`. -/
def StatusConflict : Nat := 409
/-- Go `http.StatusOK`. -/
def StatusOK : Nat := 200

/-- What an `http.ResponseWriter` has received: the header map, whether the
status line was written and with which code, and the body. -/
structure ResponseWriter where
  header : GoMap GoString
  wroteHeader : Bool
  status : Nat
  body : GoString

/-- A response writer on which nothing was written yet. -/
def ResponseWriter.fresh : ResponseWriter :=
  { header := GoMap.empty, wroteHeader := false, status := 0, body := [] }

/-- Go `ResponseWriter.WriteHeader(code)`: only the first call sets the status. -/
def ResponseWriter.WriteHeader (w : ResponseWriter) (code : Nat) : ResponseWriter :=
  if w.wroteHeader then w else { w with wroteHeader := true, status := code }

/-- Go `ResponseWriter.Write(data)`: writes the status 200 first when no status
was written, then the data. -/
def ResponseWriter.Write (w : ResponseWriter) (data : GoString) : ResponseWriter :=
  let w1 := w.WriteHeader StatusOK
  { w1 with body := w1.body ++ data }

/-- Go `http.Error(w, error, code)`: plain text content type, the status `code`
and the text followed by a newline. -/
def httpError (w : ResponseWriter) (error : GoString) (code : Nat) : ResponseWriter :=
  let h := w.header.set "Content-Type".toList "text/plain; charset=utf-8".toList
  let h := h.set "X-Content-Type-Options".toList "nosniff".toList
  let w1 := { w with header := h }
  let w2 := w1.WriteHeader code
  w2.Write (error ++ ['\n'])

/-- An `http.Handler` as the function `ServeHTTP` from the writer and the
request to the writer after the call. -/
abbrev Handler := ResponseWriter → Request → ResponseWriter

/-- Go `http.NotFoundHandler()`: replies with `http.NotFound`. -/
def httpNotFoundHandler : Handler :=
  fun w _ => httpError w "404 page not found".toList StatusNotFound

/-- Go `methodNotAllowedHandler` (router.go). -/
def methodNotAllowedHandler : Handler :=
  fun w _ => httpError w "409 method not allowed".toList StatusMethodNotAllowed

/-- Go `NewRouter` (router.go). -/
def NewRouter : Router Handler :=
  { NotFoundHandler := httpNotFoundHandler,
    MethodNotAllowedHandler := methodNotAllowedHandler }

/-- Go `(*Router).ServeHTTP` (router.go). -/
def Router.ServeHTTP (s : State Handler) (r : Router Handler) (writer : ResponseWriter)
    (request : Request) : Except GoString ResponseWriter :=
  match Router.getHandler s r request with
  | .ok handler => .ok (handler writer request)
  | .error msg => .error msg

/-- The table maps every pattern to a map of exactly one method, and the route
stored under `(p, m)` is allocated and has the pattern `p` and the method `m`. -/
def Env.TableOk {H : Type} (e : Env H) : Prop :=
  (∀ p routes, e.state.routesMap.get p = some routes → ∃ m ptr, routes.entries = [(m, ptr)]) ∧
  (∀ p m ptr, GoMap.lookup e.state.routesMap p m = some ptr →
    ∃ route, e.state.routes[ptr]? = some route ∧ route.pattern = p ∧ route.method = m)

/-- The labels recorded by the middleware of a chain of trace middleware. -/
def chainLabels (chain : List (Trace → Trace)) : List Trace :=
  chain.map (fun mw => mw [])

/-- The state after `RegisterRouteGET("/x", h)` on a fresh table, for a handler
`h` that writes an empty body. -/
def stHttpGet : State Handler :=
  (Router.RegisterRouteGET (State.init Handler) ['/', 'x'] (fun w _ => w.Write [])).state

/-! # Theorems -/


/-! ## Lemmas on maps -/

theorem GoMap.get_empty {V : Type} (k : GoString) : (GoMap.empty : GoMap V).get k = none := rfl

theorem GoMap.get_set_same {V : Type} (m : GoMap V) (k : GoString) (v : V) :
    (m.set k v).get k = some v := by
  simp [GoMap.set, GoMap.get]

theorem GoMap.find_filter_ne {V : Type} (l : List (GoString × V)) (k k2 : GoString)
    (h : k2 ≠ k) :
    (l.filter (fun e => e.1 ≠ k)).find? (fun e => e.1 = k2) = l.find? (fun e => e.1 = k2) := by
  rw [List.find?_filter]
  congr 1
  funext e
  by_cases h1 : e.1 = k2
  · have h2 : ¬ e.1 = k := fun h3 => h (h1.symm.trans h3)
    simp [h1, h2, h]
  · simp [h1]

theorem GoMap.get_set_other {V : Type} (m : GoMap V) (k k2 : GoString) (v : V) (h : k2 ≠ k) :
    (m.set k v).get k2 = m.get k2 := by
  have hk : ¬ k = k2 := fun h1 => h h1.symm
  unfold GoMap.set GoMap.get
  rw [List.find?_cons]
  simp only [hk, decide_False]
  rw [GoMap.find_filter_ne _ _ _ h]

theorem GoMap.lookup_set_same (t : RouteTable) (p : GoString) (routes : GoMap Nat)
    (m : GoString) : GoMap.lookup (t.set p routes) p m = routes.get m := by
  simp [GoMap.lookup, GoMap.get_set_same]

theorem GoMap.lookup_set_other (t : RouteTable) (p p2 : GoString) (routes : GoMap Nat)
    (m : GoString) (h : p2 ≠ p) : GoMap.lookup (t.set p routes) p2 m = GoMap.lookup t p2 m := by
  simp [GoMap.lookup, GoMap.get_set_other _ _ _ _ h]

/-! ## registerRoute -/

theorem registerRoute_failed_iff (t : RouteTable) (p m : GoString) (r : Nat) :
    (registerRoute t p m r).failed = true ↔ (GoMap.lookup t p m).isSome = true := by
  unfold registerRoute GoMap.lookup
  cases h : t.get p with
  | none => simp [Outcome.failed]
  | some routes =>
    cases h2 : routes.get m <;> simp [Outcome.failed, h2]

theorem registerRoute_of_dup (t : RouteTable) (p m : GoString) (r : Nat)
    (h : (GoMap.lookup t p m).isSome = true) :
    registerRoute t p m r = .panic (routeExistsMsg m p) t := by
  unfold registerRoute
  unfold GoMap.lookup at h
  cases h1 : t.get p with
  | none => simp [h1] at h
  | some routes =>
    rw [h1] at h
    simp at h
    simp [h]

theorem registerRoute_of_fresh (t : RouteTable) (p m : GoString) (r : Nat)
    (h : GoMap.lookup t p m = none) :
    registerRoute t p m r = .ret () (t.set p ((GoMap.empty : GoMap Nat).set m r)) := by
  unfold registerRoute
  unfold GoMap.lookup at h
  cases h1 : t.get p with
  | none => simp
  | some routes =>
    rw [h1] at h
    simp at h
    simp [h]

theorem registerRoute_cases (t : RouteTable) (p m : GoString) (r : Nat) :
    ((GoMap.lookup t p m).isSome = true ∧ registerRoute t p m r = .panic (routeExistsMsg m p) t) ∨
    (GoMap.lookup t p m = none ∧
      registerRoute t p m r = .ret () (t.set p ((GoMap.empty : GoMap Nat).set m r))) := by
  cases h : GoMap.lookup t p m with
  | none => exact Or.inr ⟨rfl, registerRoute_of_fresh t p m r h⟩
  | some x => exact Or.inl ⟨rfl, registerRoute_of_dup t p m r (by simp [h])⟩

theorem registerRoute_other_pattern (t : RouteTable) (p m p2 m2 : GoString) (r : Nat)
    (h : p2 ≠ p) : GoMap.lookup (registerRoute t p m r).state p2 m2 = GoMap.lookup t p2 m2 := by
  rcases registerRoute_cases t p m r with ⟨_, h2⟩ | ⟨_, h2⟩
  · rw [h2]; rfl
  · rw [h2]; exact GoMap.lookup_set_other _ _ _ _ _ h

/-- C1. Dispatch is a three-way case split on the route table: no entry for the
path gives the NotFound handler; an entry without a route for the method gives
the MethodNotAllowed handler; otherwise the handler currently held by the route
stored under (path, method) is returned. -/
theorem getHandler_three_way {H : Type} (s : State H) (r : Router H) (request : Request) :
    (s.routesMap.get request.path = none →
      Router.getHandler s r request = .ok r.NotFoundHandler) ∧
    (∀ routes, s.routesMap.get request.path = some routes →
      routes.get request.method = none →
      Router.getHandler s r request = .ok r.MethodNotAllowedHandler) ∧
    (∀ routes ptr route, s.routesMap.get request.path = some routes →
      routes.get request.method = some ptr → s.routes[ptr]? = some route →
      Router.getHandler s r request = .ok route.handler) := by
  refine ⟨?_, ?_, ?_⟩
  · intro h
    simp [Router.getHandler, h]
  · intro routes h1 h2
    simp [Router.getHandler, h1, h2]
  · intro routes ptr route h1 h2 h3
    simp [Router.getHandler, h1, h2, h3]

/-- Witness of C1: the three cases on the table holding only POST "/x". -/
theorem getHandler_three_way_witness :
    Router.getHandler stGetPost traceRouter ⟨['/', 'y'], MethodGet⟩ = .ok [404] ∧
    Router.getHandler stGetPost traceRouter ⟨['/', 'x'], MethodPut⟩ = .ok [405] ∧
    Router.getHandler stGetPost traceRouter ⟨['/', 'x'], MethodPost⟩ = .ok [7] :=
  ⟨(getHandler_three_way stGetPost traceRouter ⟨['/', 'y'], MethodGet⟩).1 rfl,
   (getHandler_three_way stGetPost traceRouter ⟨['/', 'x'], MethodPut⟩).2.1
      ((GoMap.empty : GoMap Nat).set MethodPost 1) rfl rfl,
   (getHandler_three_way stGetPost traceRouter ⟨['/', 'x'], MethodPost⟩).2.2
      ((GoMap.empty : GoMap Nat).set MethodPost 1) 1
      { handler := [7], original := [7], pattern := ['/', 'x'], method := MethodPost,
        middlewares := Slice.nil, group := none } rfl rfl rfl⟩

/-- C2. `registerRoute(p, m, r)` panics exactly when the table holds a route
for `(p, m)`, and then leaves the table as it was; registering the same pair
again right after always panics and leaves the table as it was; after a
successful registration of `(p, m)`, registering `(p, m')` with another method
does not panic; after a successful registration the lookup of `(p, m)` yields `r`. -/
theorem registerRoute_duplicate (t : RouteTable) (p m : GoString) (r : Nat) :
    ((registerRoute t p m r).failed = true ↔ (GoMap.lookup t p m).isSome = true) ∧
    ((registerRoute t p m r).failed = true → (registerRoute t p m r).state = t) ∧
    (∀ r2, (registerRoute (registerRoute t p m r).state p m r2).failed = true ∧
      (registerRoute (registerRoute t p m r).state p m r2).state =
        (registerRoute t p m r).state) ∧
    (∀ m2 r2, m2 ≠ m → (registerRoute t p m r).failed = false →
      (registerRoute (registerRoute t p m r).state p m2 r2).failed = false) ∧
    ((registerRoute t p m r).failed = false →
      GoMap.lookup (registerRoute t p m r).state p m = some r) := by
  have hlook : (registerRoute t p m r).failed = false →
      GoMap.lookup (registerRoute t p m r).state p m = some r := by
    intro hf
    rcases registerRoute_cases t p m r with ⟨_, h2⟩ | ⟨_, h2⟩
    · rw [h2] at hf; simp [Outcome.failed] at hf
    · rw [h2]; simp [Outcome.state, GoMap.lookup_set_same, GoMap.get_set_same]
  have hheld : (GoMap.lookup (registerRoute t p m r).state p m).isSome = true := by
    rcases registerRoute_cases t p m r with ⟨h1, h2⟩ | ⟨_, h2⟩
    · rw [h2]; simpa [Outcome.state] using h1
    · rw [h2]; simp [Outcome.state, GoMap.lookup_set_same, GoMap.get_set_same]
  refine ⟨registerRoute_failed_iff t p m r, ?_, ?_, ?_, hlook⟩
  · intro hf
    rcases registerRoute_cases t p m r with ⟨_, h2⟩ | ⟨_, h2⟩
    · rw [h2]; rfl
    · rw [h2] at hf; simp [Outcome.failed] at hf
  · intro r2
    rw [registerRoute_of_dup _ p m r2 hheld]
    exact ⟨rfl, rfl⟩
  · intro m2 r2 hne hf
    rcases registerRoute_cases t p m r with ⟨_, h2⟩ | ⟨_, h2⟩
    · rw [h2] at hf; simp [Outcome.failed] at hf
    · have hnone : GoMap.lookup (registerRoute t p m r).state p m2 = none := by
        rw [h2]
        simp [Outcome.state, GoMap.lookup_set_same, GoMap.get_set_other _ _ _ _ hne,
          GoMap.get_empty]
      rw [registerRoute_of_fresh _ p m2 r2 hnone]
      rfl

/-- Witness of C2: on the empty table GET "/x" registers, and is then held. -/
theorem registerRoute_duplicate_witness :
    GoMap.lookup (registerRoute GoMap.empty ['/', 'x'] MethodGet 0).state ['/', 'x'] MethodGet
      = some 0 :=
  (registerRoute_duplicate GoMap.empty ['/', 'x'] MethodGet 0).2.2.2.2 rfl

/-- C3, evaluated on the code: after GET and then POST are registered on "/x",
both calls having succeeded, the table no longer holds the GET route, and a GET
request to "/x" is answered by the MethodNotAllowed handler. -/
theorem registerRoute_drops_sibling_method :
    (Router.RegisterRouteGET (State.init Trace) ['/', 'x'] [0]).failed = false ∧
    GoMap.lookup stGet.routesMap ['/', 'x'] MethodGet = some 0 ∧
    (Router.RegisterRoutePOST stGet ['/', 'x'] [7]).failed = false ∧
    GoMap.lookup stGetPost.routesMap ['/', 'x'] MethodGet = none ∧
    Router.getHandler stGetPost traceRouter ⟨['/', 'x'], MethodGet⟩ = .ok [405] ∧
    Router.getHandler stGetPost traceRouter ⟨['/', 'x'], MethodPost⟩ = .ok [7] :=
  ⟨rfl, rfl, rfl, rfl, rfl, rfl⟩

/-- C4, evaluated on the code: from the empty table, GET "/x" (route 0) and
POST "/x" (route 1) are registered; a second registration of GET "/x"
(route 2) then succeeds, and the pair now maps to route 2. -/
theorem registerRoute_accepts_earlier_pair :
    (registerRoute GoMap.empty ['/', 'x'] MethodGet 0).failed = false ∧
    (registerRoute (registerSeq GoMap.empty [(['/', 'x'], MethodGet, 0),
      (['/', 'x'], MethodPost, 1)]) ['/', 'x'] MethodGet 2).failed = false ∧
    GoMap.lookup (registerSeq GoMap.empty [(['/', 'x'], MethodGet, 0),
      (['/', 'x'], MethodPost, 1), (['/', 'x'], MethodGet, 2)]) ['/', 'x'] MethodGet = some 2 ∧
    GoMap.lookup (registerSeq GoMap.empty [(['/', 'x'], MethodGet, 0),
      (['/', 'x'], MethodPost, 1), (['/', 'x'], MethodGet, 2)]) ['/', 'x'] MethodPost = none :=
  ⟨rfl, rfl, rfl, rfl⟩


/-! ## Slices and the composition loop -/

theorem wrapLoop_eq_take {H : Type} (ms : List (H → H)) (n : Nat) (h : H) :
    wrapLoop ms n h = firstOutermost (ms.take n) h := by
  induction n generalizing h with
  | zero => simp [wrapLoop, firstOutermost]
  | succ i ih =>
    rw [wrapLoop, List.take_succ]
    cases hi : ms[i]? with
    | none => simp [ih, firstOutermost]
    | some mw => simp [ih, firstOutermost, List.foldr_append]

theorem wrapLoop_elems {H : Type} (s : State H) (sl : Slice) (h : H) :
    wrapLoop (s.elems sl) sl.len h = firstOutermost (s.elems sl) h := by
  rw [wrapLoop_eq_take]
  simp [State.elems, List.take_take]

theorem firstOutermost_append {H : Type} (xs ys : List (H → H)) (h : H) :
    firstOutermost (xs ++ ys) h = firstOutermost xs (firstOutermost ys h) := by
  simp [firstOutermost, List.foldr_append]

theorem take_overwrite {α : Type} (old m : List α) (n : Nat) :
    (old.take n ++ m ++ old.drop (n + m.length)).take (n + m.length) = old.take n ++ m := by
  by_cases hn : n ≤ old.length
  · have hlen : (old.take n ++ m).length = n + m.length := by
      simp [List.length_take, Nat.min_eq_left hn]
    rw [← hlen, List.take_left]
  · have hdrop : old.drop (n + m.length) = [] := by
      apply List.drop_eq_nil_of_le
      omega
    rw [hdrop, List.append_nil]
    apply List.take_of_length_le
    simp [List.length_take]

theorem elems_append {H : Type} (growCap : Nat → Nat → Nat) (s : State H) (sl : Slice)
    (m : List (H → H)) :
    (s.append growCap sl m).2.elems (s.append growCap sl m).1 = s.elems sl ++ m := by
  unfold State.append
  by_cases hc : sl.len + m.length ≤ sl.cap
  · simp only [hc, if_true, State.elems]
    exact take_overwrite _ _ _
  · simp only [hc, if_false, State.elems]
    simp only [if_true]
    apply List.take_of_length_le
    simp [List.length_take]

theorem append_routes {H : Type} (growCap : Nat → Nat → Nat) (s : State H) (sl : Slice)
    (m : List (H → H)) :
    (s.append growCap sl m).2.routes = s.routes ∧
    (s.append growCap sl m).2.routesMap = s.routesMap := by
  unfold State.append
  by_cases hc : sl.len + m.length ≤ sl.cap <;> simp [hc]

theorem Middleware_spec {H : Type} (growCap : Nat → Nat → Nat) (s : State H) (r : Nat)
    (route : Route H) (m : List (H → H)) (hr : s.routes[r]? = some route) :
    ∃ s2 route2, Route.Middleware growCap s r m = .ret () s2 ∧
      s2.routes[r]? = some route2 ∧
      (s2.routesMap = s.routesMap ∧ s2.routes = s.routes.set r route2) ∧
      s2.elems route2.middlewares = s.elems route.middlewares ++ m ∧
      route2.original = route.original ∧
      route2.pattern = route.pattern ∧ route2.method = route.method ∧
      route2.handler = firstOutermost (s.elems route.middlewares ++ m) route.original := by
  have hlt : r < s.routes.length := by
    rcases Nat.lt_or_ge r s.routes.length with h | h
    · exact h
    · rw [List.getElem?_eq_none h] at hr; cases hr
  have hel := elems_append growCap s route.middlewares m
  have hrt := append_routes growCap s route.middlewares m
  refine ⟨{ (s.append growCap route.middlewares m).2 with
      routes := (s.append growCap route.middlewares m).2.routes.set r
        { route with
          handler := wrapLoop ((s.append growCap route.middlewares m).2.elems
            (s.append growCap route.middlewares m).1)
            (s.append growCap route.middlewares m).1.len route.original
          middlewares := (s.append growCap route.middlewares m).1 } },
    { route with
      handler := wrapLoop ((s.append growCap route.middlewares m).2.elems
        (s.append growCap route.middlewares m).1)
        (s.append growCap route.middlewares m).1.len route.original
      middlewares := (s.append growCap route.middlewares m).1 }, ?_, ?_, ?_, ?_, rfl, rfl, rfl, ?_⟩
  · simp [Route.Middleware, hr]
  · simp [hrt.1, hlt]
  · exact ⟨hrt.2, by simp [hrt.1]⟩
  · simpa [State.elems] using hel
  · simp only
    rw [wrapLoop_elems, hel]


/-! ## Registration through the Router and through a group -/

theorem routerRegister_ok {H : Type} (method : GoString) (s : State H)
    (pattern p : GoString) (handler : H) (hp : getValidPattern pattern = .ok p)
    (hfree : GoMap.lookup s.routesMap p method = none) :
    Router.RegisterRoute method s pattern handler = .ret s.routes.length
      { s with
        routes := s.routes ++ [{
          handler := handler, original := handler, pattern := p, method := method,
          middlewares := Slice.nil, group := none }]
        routesMap := s.routesMap.set p ((GoMap.empty : GoMap Nat).set method s.routes.length) } := by
  unfold Router.RegisterRoute
  simp only [hp]
  rw [registerRoute_of_fresh _ _ _ _ hfree]

theorem routerRegister_ret {H : Type} (method : GoString) (s s2 : State H)
    (pattern : GoString) (handler : H) (r : Nat)
    (h : Router.RegisterRoute method s pattern handler = .ret r s2) :
    ∃ p, getValidPattern pattern = .ok p ∧ GoMap.lookup s.routesMap p method = none ∧
      r = s.routes.length ∧
      s2 = { s with
        routes := s.routes ++ [{
          handler := handler, original := handler, pattern := p, method := method,
          middlewares := Slice.nil, group := none }]
        routesMap := s.routesMap.set p ((GoMap.empty : GoMap Nat).set method s.routes.length) } := by
  have h0 := h
  unfold Router.RegisterRoute at h
  cases hp : getValidPattern pattern with
  | error msg => simp [hp] at h
  | ok p =>
    simp only [hp] at h
    rcases registerRoute_cases s.routesMap p method s.routes.length with ⟨_, h2⟩ | ⟨h1, _⟩
    · rw [h2] at h; simp at h
    · rw [routerRegister_ok method s pattern p handler hp h1] at h0
      injection h0 with e1 e2
      exact ⟨p, rfl, h1, e1.symm, e2.symm⟩

theorem groupRegister_ok {H : Type} (method : GoString) (s : State H)
    (gr : GroupRoute) (pattern p : GoString) (handler : H)
    (hp : getValidPattern pattern = .ok p)
    (hfree : GoMap.lookup s.routesMap (gr.pattern ++ p) method = none) :
    GroupRoute.RegisterRoute method s gr pattern handler = .ret s.routes.length
      { s with
        routes := s.routes ++ [{
          handler := wrapLoop (s.elems gr.middlewares) gr.middlewares.len handler,
          original := handler, pattern := gr.pattern ++ p, method := method,
          middlewares := gr.middlewares, group := some gr }]
        routesMap := s.routesMap.set (gr.pattern ++ p)
          ((GoMap.empty : GoMap Nat).set method s.routes.length) } := by
  unfold GroupRoute.RegisterRoute
  simp only [hp]
  rw [registerRoute_of_fresh _ _ _ _ hfree]

theorem groupRegister_ret {H : Type} (method : GoString) (s s2 : State H)
    (gr : GroupRoute) (pattern : GoString) (handler : H) (r : Nat)
    (h : GroupRoute.RegisterRoute method s gr pattern handler = .ret r s2) :
    ∃ p, getValidPattern pattern = .ok p ∧
      GoMap.lookup s.routesMap (gr.pattern ++ p) method = none ∧
      r = s.routes.length ∧
      s2 = { s with
        routes := s.routes ++ [{
          handler := wrapLoop (s.elems gr.middlewares) gr.middlewares.len handler,
          original := handler, pattern := gr.pattern ++ p, method := method,
          middlewares := gr.middlewares, group := some gr }]
        routesMap := s.routesMap.set (gr.pattern ++ p)
          ((GoMap.empty : GoMap Nat).set method s.routes.length) } := by
  have h0 := h
  unfold GroupRoute.RegisterRoute at h
  cases hp : getValidPattern pattern with
  | error msg => simp [hp] at h
  | ok p =>
    simp only [hp] at h
    rcases registerRoute_cases s.routesMap (gr.pattern ++ p) method s.routes.length with
      ⟨_, h2⟩ | ⟨h1, _⟩
    · rw [h2] at h; simp at h
    · rw [groupRegister_ok method s gr pattern p handler hp h1] at h0
      injection h0 with e1 e2
      exact ⟨p, rfl, h1, e1.symm, e2.symm⟩

theorem subgroupRegister_ok {H : Type} (growCap : Nat → Nat → Nat) (s : State H)
    (gr : GroupRoute) (pfx q : GoString) (m : List (H → H))
    (hq : getValidPattern pfx = .ok q) :
    GroupRoute.RegisterGroupRoute growCap s gr pfx m =
      .ret { pattern := gr.pattern ++ q, middlewares := (s.append growCap gr.middlewares m).1 }
        (s.append growCap gr.middlewares m).2 := by
  unfold GroupRoute.RegisterGroupRoute
  simp only [hq]

/-- C5 (as amended). A call `r.Middleware(m...)` on a route whose chain reads
`old` returns, leaves the route with the chain `old ++ m` and the same original
handler `h`, and with the wrapped handler `M₁(M₂(...(Mₙ(h))))` for
`old ++ m = [M₁, ..., Mₙ]`: the first middleware of the chain is the outermost
wrapper and the last one is next to the original handler. -/
theorem Middleware_first_outermost {H : Type} (growCap : Nat → Nat → Nat) (s : State H)
    (r : Nat) (route : Route H) (m : List (H → H)) (hr : s.routes[r]? = some route) :
    ∃ s2 route2, Route.Middleware growCap s r m = .ret () s2 ∧
      s2.routes[r]? = some route2 ∧
      s2.elems route2.middlewares = s.elems route.middlewares ++ m ∧
      route2.original = route.original ∧
      route2.handler =
        (s.elems route.middlewares ++ m).foldr (fun mw inner => mw inner) route.original := by
  obtain ⟨s2, route2, h1, h2, _, h4, h5, _, _, h8⟩ := Middleware_spec growCap s r route m hr
  exact ⟨s2, route2, h1, h2, h4, h5, h8⟩

/-- Witness of C5 (as amended): `Middleware(M1, M2)` on the route of `stGet`. -/
theorem Middleware_first_outermost_witness :
    ∃ s2 route2, Route.Middleware goGrowCap stGet 0 [logMw 1, logMw 2] = .ret () s2 ∧
      s2.routes[0]? = some route2 ∧
      s2.elems route2.middlewares = stGet.elems Slice.nil ++ [logMw 1, logMw 2] ∧
      route2.original = [0] ∧
      route2.handler = (stGet.elems Slice.nil ++ [logMw 1, logMw 2]).foldr
        (fun mw inner => mw inner) [0] :=
  Middleware_first_outermost goGrowCap stGet 0
    { handler := [0], original := [0], pattern := ['/', 'x'], method := MethodGet,
      middlewares := Slice.nil, group := none } [logMw 1, logMw 2] rfl

/-- C5 as stated fails: after `M1` and then `M2` are appended to a route whose
handler records 0, the chain is `[M1, M2]` and serving records 1, then 2, then
0, so `M1` runs first; the composition `M2(M1(h))` of the claim records 2, 1, 0. -/
theorem Middleware_last_is_not_outermost :
    (stTwoAppends.routes[0]?).map (fun rt => stTwoAppends.elems rt.middlewares)
      = some [logMw 1, logMw 2] ∧
    (stTwoAppends.routes[0]?).map (fun rt => rt.handler) = some [1, 2, 0] ∧
    lastOutermost [logMw 1, logMw 2] [0] = [2, 1, 0] ∧
    (stTwoAppends.routes[0]?).map (fun rt => rt.handler)
      ≠ some (lastOutermost [logMw 1, logMw 2] [0]) := by
  refine ⟨rfl, rfl, rfl, ?_⟩
  rw [show (stTwoAppends.routes[0]?).map (fun rt => rt.handler) = some [1, 2, 0] from rfl,
    show lastOutermost [logMw 1, logMw 2] [0] = [2, 1, 0] from rfl]
  decide

/-- C6 (as amended). For a parent group whose chain reads `P`, a subgroup
created with chain `C` has the chain `P ++ C`, and a route registered through
the subgroup right after has the chain `P ++ C` and the wrapped handler
`P₁(...(Pₖ(C₁(...(Cₘ(h))))))`: the middleware of the parent are the outermost
(they run first), those of the child are next to the original handler. -/
theorem subgroup_parent_outermost {H : Type} (growCap : Nat → Nat → Nat) (s : State H)
    (gr : GroupRoute) (pfx q pattern p method : GoString) (C : List (H → H)) (h : H)
    (hq : getValidPattern pfx = .ok q) (hp : getValidPattern pattern = .ok p) :
    ∃ sub s1, GroupRoute.RegisterGroupRoute growCap s gr pfx C = .ret sub s1 ∧
      s1.elems sub.middlewares = s.elems gr.middlewares ++ C ∧
      (GoMap.lookup s1.routesMap (sub.pattern ++ p) method = none →
        ∃ r s2 route, GroupRoute.RegisterRoute method s1 sub pattern h = .ret r s2 ∧
          s2.routes[r]? = some route ∧
          s2.elems route.middlewares = s.elems gr.middlewares ++ C ∧
          route.original = h ∧
          route.handler = firstOutermost (s.elems gr.middlewares) (firstOutermost C h)) := by
  have hel := elems_append growCap s gr.middlewares C
  refine ⟨_, _, subgroupRegister_ok growCap s gr pfx q C hq, hel, ?_⟩
  intro hfree
  refine ⟨_, _,
    { handler := wrapLoop ((s.append growCap gr.middlewares C).2.elems
        (s.append growCap gr.middlewares C).1) (s.append growCap gr.middlewares C).1.len h,
      original := h, pattern := gr.pattern ++ q ++ p, method := method,
      middlewares := (s.append growCap gr.middlewares C).1,
      group := some { pattern := gr.pattern ++ q,
                      middlewares := (s.append growCap gr.middlewares C).1 } },
    groupRegister_ok method _ _ pattern p h hp hfree, ?_, ?_, rfl, ?_⟩
  · simp
  · simpa [State.elems] using hel
  · simp only
    rw [wrapLoop_elems, hel, firstOutermost_append]

/-- Witness of C6 (as amended): parent "/a" with `[M1]`, subgroup "/b" with
`[M2]`, route GET "/c". -/
theorem subgroup_parent_outermost_witness :
    ∃ sub s1, GroupRoute.RegisterGroupRoute goGrowCap parentA.2 parentA.1 ['/', 'b'] [logMw 2]
        = .ret sub s1 ∧
      s1.elems sub.middlewares = parentA.2.elems parentA.1.middlewares ++ [logMw 2] ∧
      (GoMap.lookup s1.routesMap (sub.pattern ++ ['/', 'c']) MethodGet = none →
        ∃ r s2 route, GroupRoute.RegisterRoute MethodGet s1 sub ['/', 'c'] [0] = .ret r s2 ∧
          s2.routes[r]? = some route ∧
          s2.elems route.middlewares = parentA.2.elems parentA.1.middlewares ++ [logMw 2] ∧
          route.original = [0] ∧
          route.handler = firstOutermost (parentA.2.elems parentA.1.middlewares)
            (firstOutermost [logMw 2] [0])) :=
  subgroup_parent_outermost goGrowCap parentA.2 parentA.1 ['/', 'b'] ['/', 'b'] ['/', 'c']
    ['/', 'c'] MethodGet [logMw 2] [0] rfl rfl

/-- C6 as stated fails: for the parent "/a" with chain `[M1]`, its subgroup "/b"
with chain `[M2]` and the route GET "/c" whose handler records 0, the chain of
the route is `[M1, M2]` and serving records 1, then 2, then 0: the middleware
of the parent runs first, not last as in `M2(M1(h))`. -/
theorem subgroup_parent_is_not_innermost :
    subgroupAB.val? = some ⟨['/', 'a', '/', 'b'], ⟨1, 2, 2⟩⟩ ∧
    routeABC.val? = some 0 ∧
    (routeABC.state.routes[0]?).map (fun rt => routeABC.state.elems rt.middlewares)
      = some [logMw 1, logMw 2] ∧
    (routeABC.state.routes[0]?).map (fun rt => rt.handler) = some [1, 2, 0] ∧
    (routeABC.state.routes[0]?).map (fun rt => rt.handler)
      ≠ some (lastOutermost [logMw 1, logMw 2] [0]) := by
  refine ⟨rfl, rfl, rfl, rfl, ?_⟩
  rw [show (routeABC.state.routes[0]?).map (fun rt => rt.handler) = some [1, 2, 0] from rfl,
    show lastOutermost [logMw 1, logMw 2] [0] = [2, 1, 0] from rfl]
  decide

/-- Two calls of `Middleware` leave a route as one call with the concatenated
arguments does: same chain, same wrapped handler, same original handler. -/
theorem Middleware_twice_eq_once {H : Type} (growCap : Nat → Nat → Nat) (s : State H)
    (r : Nat) (route : Route H) (xs ys : List (H → H)) (hr : s.routes[r]? = some route) :
    ∃ s1 s2 s3 routeA routeB,
      Route.Middleware growCap s r xs = .ret () s1 ∧
      Route.Middleware growCap s1 r ys = .ret () s2 ∧
      Route.Middleware growCap s r (xs ++ ys) = .ret () s3 ∧
      s2.routes[r]? = some routeA ∧ s3.routes[r]? = some routeB ∧
      s2.elems routeA.middlewares = s3.elems routeB.middlewares ∧
      routeA.handler = routeB.handler ∧
      routeA.original = route.original ∧ routeB.original = route.original := by
  obtain ⟨s1, r1, h1, h2, _, h4, h5, _, _, _⟩ := Middleware_spec growCap s r route xs hr
  obtain ⟨s2, r2, k1, k2, _, k4, k5, _, _, k8⟩ := Middleware_spec growCap s1 r r1 ys h2
  obtain ⟨s3, r3, l1, l2, _, l4, l5, _, _, l8⟩ := Middleware_spec growCap s r route (xs ++ ys) hr
  refine ⟨s1, s2, s3, r2, r3, h1, k1, l1, k2, l2, ?_, ?_, ?_, l5⟩
  · rw [k4, h4, l4, List.append_assoc]
  · rw [k8, l8, h4, h5, List.append_assoc]
  · rw [k5, h5]

/-- A call `Middleware()` without argument leaves the wrapped handler of a route
unchanged when that handler is the composition of the chain the route reads. -/
theorem Middleware_nil_of_composed {H : Type} (growCap : Nat → Nat → Nat) (s : State H)
    (r : Nat) (route : Route H) (hr : s.routes[r]? = some route)
    (hsync : route.handler = firstOutermost (s.elems route.middlewares) route.original) :
    ∃ s2 route2, Route.Middleware growCap s r [] = .ret () s2 ∧
      s2.routes[r]? = some route2 ∧ route2.handler = route.handler := by
  obtain ⟨s2, route2, h1, h2, _, _, _, _, _, h8⟩ := Middleware_spec growCap s r route [] hr
  exact ⟨s2, route2, h1, h2, by rw [h8, hsync, List.append_nil]⟩

/-- C7, evaluated on the code: two routes `r0`, `r1` are registered through the
subgroup made by `RegisterGroupRoute("/a", M1, M2).RegisterGroupRoute("/b", M3)`,
whose chain has length 3 in a backing array of capacity 4. After
`r0.Middleware(M4)` the handler of `r0` records 1, 2, 3, 4, 0; `r1.Middleware(M5)`
writes `M5` over `M4` in the shared array; `r0.Middleware()` then changes the
handler of `r0`, which records 1, 2, 3, 5, 0. -/
theorem Middleware_no_args_changes_handler :
    subgroupA12B3.val? = some subA12B3 ∧
    (stSiblings.routes[0]?).map (fun rt => rt.handler) = some [1, 2, 3, 0] ∧
    (stSiblings4.routes[0]?).map (fun rt => rt.handler) = some [1, 2, 3, 4, 0] ∧
    (stSiblings45.routes[0]?).map (fun rt => rt.handler) = some [1, 2, 3, 4, 0] ∧
    (Route.Middleware goGrowCap stSiblings45 0 []).failed = false ∧
    (stSiblings45Rebuilt.routes[0]?).map (fun rt => rt.handler) = some [1, 2, 3, 5, 0] ∧
    (stSiblings45Rebuilt.routes[0]?).map (fun rt => rt.handler)
      ≠ (stSiblings45.routes[0]?).map (fun rt => rt.handler) := by
  refine ⟨rfl, rfl, rfl, rfl, rfl, rfl, ?_⟩
  rw [show (stSiblings45Rebuilt.routes[0]?).map (fun rt => rt.handler)
        = some [1, 2, 3, 5, 0] from rfl,
    show (stSiblings45.routes[0]?).map (fun rt => rt.handler) = some [1, 2, 3, 4, 0] from rfl]
  decide


/-! ## The normaliser -/

theorem stringsContains_singleton (s : GoString) (c : Char) :
    stringsContains s [c] = true ↔ c ∈ s := by
  induction s with
  | nil => simp [stringsContains, List.isPrefixOf]
  | cons d ds ih =>
    simp only [stringsContains, List.isPrefixOf, Bool.or_eq_true, Bool.and_eq_true, ih,
      List.mem_cons]
    simp

theorem stringsSplit_cons_sep (cs : GoString) (sep : Char) :
    stringsSplit (sep :: cs) sep = [] :: stringsSplit cs sep := by
  simp [stringsSplit]

theorem stringsSplit_cons_ne (c : Char) (cs : GoString) (sep : Char) (h : ¬ c = sep) :
    stringsSplit (c :: cs) sep =
      match stringsSplit cs sep with
      | [] => [[c]]
      | part :: parts => (c :: part) :: parts := by
  simp [stringsSplit, h]

theorem stringsSplit_ne_nil (s : GoString) (sep : Char) : stringsSplit s sep ≠ [] := by
  induction s with
  | nil => simp [stringsSplit]
  | cons c cs ih =>
    unfold stringsSplit
    by_cases h : c = sep
    · simp [h]
    · simp only [h, if_false]
      cases hs : stringsSplit cs sep <;> simp

theorem stringsSplit_append_sep (u v : GoString) (sep : Char) :
    stringsSplit (u ++ sep :: v) sep = stringsSplit u sep ++ stringsSplit v sep := by
  induction u with
  | nil => simp [stringsSplit]
  | cons c cs ih =>
    rw [List.cons_append]
    by_cases h : c = sep
    · rw [h, stringsSplit_cons_sep, stringsSplit_cons_sep, ih, List.cons_append]
    · rw [stringsSplit_cons_ne _ _ _ h, stringsSplit_cons_ne _ _ _ h, ih]
      cases hs : stringsSplit cs sep with
      | nil => exact absurd hs (stringsSplit_ne_nil cs sep)
      | cons part parts => simp

theorem stringsSplit_of_not_mem (u : GoString) (sep : Char) (h : sep ∉ u) :
    stringsSplit u sep = [u] := by
  induction u with
  | nil => simp [stringsSplit]
  | cons c cs ih =>
    have hc : ¬ c = sep := fun e => h (by simp [e])
    have hcs : sep ∉ cs := fun e => h (List.mem_cons_of_mem _ e)
    unfold stringsSplit
    simp [hc, ih hcs]

theorem mem_stringsSplit (s : GoString) (sep : Char) (part : GoString)
    (h : part ∈ stringsSplit s sep) : sep ∉ part ∧ ∀ c ∈ part, c ∈ s := by
  induction s generalizing part with
  | nil =>
    simp [stringsSplit] at h
    simp [h]
  | cons d ds ih =>
    unfold stringsSplit at h
    by_cases hd : d = sep
    · simp only [hd, if_true, List.mem_cons] at h
      rcases h with h | h
      · simp [h]
      · obtain ⟨h1, h2⟩ := ih part h
        exact ⟨h1, fun c hc => List.mem_cons_of_mem _ (h2 c hc)⟩
    · simp only [hd, if_false] at h
      cases hs : stringsSplit ds sep with
      | nil => exact absurd hs (stringsSplit_ne_nil ds sep)
      | cons q qs =>
        rw [hs] at h
        simp only [List.mem_cons] at h
        rcases h with h | h
        · obtain ⟨h1, h2⟩ := ih q (by simp [hs])
          subst h
          refine ⟨?_, ?_⟩
          · intro hmem
            rcases List.mem_cons.mp hmem with e | e
            · exact hd e.symm
            · exact h1 e
          · intro c hc
            rcases List.mem_cons.mp hc with e | e
            · simp [e]
            · exact List.mem_cons_of_mem _ (h2 c e)
        · obtain ⟨h1, h2⟩ := ih part (by simp [hs, h])
          exact ⟨h1, fun c hc => List.mem_cons_of_mem _ (h2 c hc)⟩

theorem clean_all_sep (w : GoString) (sep : Char) (h : ∀ c ∈ w, c = sep) :
    (stringsSplit w sep).filter (fun part => part ≠ []) = [] := by
  induction w with
  | nil => simp [stringsSplit]
  | cons c cs ih =>
    have hc : c = sep := h c (by simp)
    unfold stringsSplit
    simp only [hc, if_true]
    simpa using ih (fun d hd => h d (List.mem_cons_of_mem _ hd))

theorem clean_sep_prefix (w u : GoString) (sep : Char) (h : ∀ c ∈ w, c = sep) :
    (stringsSplit (w ++ u) sep).filter (fun part => part ≠ []) =
      (stringsSplit u sep).filter (fun part => part ≠ []) := by
  induction w with
  | nil => rfl
  | cons c cs ih =>
    have hc : c = sep := h c (by simp)
    rw [List.cons_append, hc, stringsSplit_cons_sep]
    simpa using ih (fun d hd => h d (List.mem_cons_of_mem _ hd))

theorem clean_sep_suffix (u w : GoString) (sep : Char) (h : ∀ c ∈ w, c = sep) :
    (stringsSplit (u ++ w) sep).filter (fun part => part ≠ []) =
      (stringsSplit u sep).filter (fun part => part ≠ []) := by
  cases w with
  | nil => simp
  | cons c cs =>
    have hc : c = sep := h c (by simp)
    rw [hc, stringsSplit_append_sep, List.filter_append,
      clean_all_sep cs sep (fun d hd => h d (List.mem_cons_of_mem _ hd)), List.append_nil]

theorem trimLeft_decomp (s : GoString) (f : Char → Bool) :
    ∃ w, s = w ++ stringsTrimLeftFunc s f ∧ ∀ c ∈ w, f c = true :=
  ⟨s.takeWhile f, (List.takeWhile_append_dropWhile f s).symm,
    fun _ hc => List.mem_takeWhile_imp hc⟩

theorem trimRight_decomp (s : GoString) (f : Char → Bool) :
    ∃ w, s = stringsTrimRightFunc s f ++ w ∧ ∀ c ∈ w, f c = true := by
  refine ⟨(s.reverse.takeWhile f).reverse, ?_, ?_⟩
  · unfold stringsTrimRightFunc
    rw [← List.reverse_append, List.takeWhile_append_dropWhile, List.reverse_reverse]
  · intro c hc
    exact List.mem_takeWhile_imp (List.mem_reverse.mp hc)

theorem clean_stringsTrim (s : GoString) (sep : Char) :
    (stringsSplit (stringsTrim s [sep]) sep).filter (fun part => part ≠ []) =
      (stringsSplit s sep).filter (fun part => part ≠ []) := by
  unfold stringsTrim
  obtain ⟨w1, h1, hw1⟩ := trimRight_decomp s (fun c => decide (c ∈ [sep]))
  obtain ⟨w2, h2, hw2⟩ := trimLeft_decomp (stringsTrimRightFunc s (fun c => decide (c ∈ [sep])))
    (fun c => decide (c ∈ [sep]))
  have e1 : ∀ c ∈ w1, c = sep := fun c hc => by simpa using hw1 c hc
  have e2 : ∀ c ∈ w2, c = sep := fun c hc => by simpa using hw2 c hc
  conv_rhs => rw [h1, clean_sep_suffix _ _ _ e1, h2, clean_sep_prefix _ _ _ e2]

theorem intercalate_cons_cons (sep a b : GoString) (rest : List GoString) :
    sep.intercalate (a :: b :: rest) = a ++ sep ++ sep.intercalate (b :: rest) := by
  simp [List.intercalate, List.intersperse]

theorem clean_split_join (segs : List GoString) (sep : Char)
    (h : ∀ seg ∈ segs, seg ≠ [] ∧ sep ∉ seg) :
    (stringsSplit (stringsJoin segs [sep]) sep).filter (fun part => part ≠ []) = segs := by
  unfold stringsJoin
  induction segs with
  | nil => simp [List.intercalate, stringsSplit]
  | cons a rest ih =>
    obtain ⟨ha1, ha2⟩ := h a (by simp)
    cases rest with
    | nil =>
      simp [List.intercalate, List.intersperse, stringsSplit_of_not_mem a sep ha2, ha1]
    | cons b rest2 =>
      rw [intercalate_cons_cons, List.append_assoc, List.singleton_append,
        stringsSplit_append_sep, List.filter_append, stringsSplit_of_not_mem a sep ha2,
        ih (fun seg hseg => h seg (List.mem_cons_of_mem _ hseg))]
      simp [ha1]

theorem mem_stringsJoin (segs : List GoString) (sep : GoString) (c : Char)
    (h : c ∈ stringsJoin segs sep) : c ∈ sep ∨ ∃ seg ∈ segs, c ∈ seg := by
  unfold stringsJoin at h
  induction segs with
  | nil => simp [List.intercalate] at h
  | cons a rest ih =>
    cases rest with
    | nil =>
      simp [List.intercalate, List.intersperse] at h
      exact Or.inr ⟨a, by simp, h⟩
    | cons b rest2 =>
      rw [intercalate_cons_cons] at h
      simp only [List.mem_append] at h
      rcases h with (h | h) | h
      · exact Or.inr ⟨a, by simp, h⟩
      · exact Or.inl h
      · rcases ih h with h2 | ⟨seg, hs, hc⟩
        · exact Or.inl h2
        · exact Or.inr ⟨seg, List.mem_cons_of_mem _ hs, hc⟩

theorem mem_trimLeft (s : GoString) (f : Char → Bool) (c : Char)
    (h : c ∈ stringsTrimLeftFunc s f) : c ∈ s :=
  (List.dropWhile_sublist f).subset h

theorem mem_trimRight (s : GoString) (f : Char → Bool) (c : Char)
    (h : c ∈ stringsTrimRightFunc s f) : c ∈ s := by
  unfold stringsTrimRightFunc at h
  exact List.mem_reverse.mp ((List.dropWhile_sublist f).subset (List.mem_reverse.mp h))

theorem mem_stringsTrim (s cutset : GoString) (c : Char) (h : c ∈ stringsTrim s cutset) :
    c ∈ s :=
  mem_trimRight _ _ _ (mem_trimLeft _ _ _ h)

/-- The non-empty pieces kept by `getValidPattern`. -/
theorem cleanParts_spec (s : GoString) (seg : GoString)
    (h : seg ∈ (stringsSplit (stringsTrim s ['/']) '/').filter (fun part => part ≠ [])) :
    (seg ≠ [] ∧ '/' ∉ seg) ∧ ∀ c ∈ seg, c ∈ s := by
  rw [List.mem_filter] at h
  obtain ⟨h1, h2⟩ := h
  obtain ⟨h3, h4⟩ := mem_stringsSplit _ _ _ h1
  exact ⟨⟨by simpa using h2, h3⟩, fun c hc => mem_stringsTrim _ _ _ (h4 c hc)⟩

theorem getValidPattern_blank (s : GoString) (h : stringsTrimSpace s = []) :
    getValidPattern s = .ok [] := by
  simp [getValidPattern, h]

theorem getValidPattern_space (s : GoString) (h1 : stringsTrimSpace s ≠ []) (h2 : ' ' ∈ s) :
    getValidPattern s = .error (invalidPatternMsg s) := by
  simp [getValidPattern, h1, (stringsContains_singleton s ' ').mpr h2]

theorem getValidPattern_clean (s : GoString) (h1 : stringsTrimSpace s ≠ []) (h2 : ' ' ∉ s) :
    getValidPattern s = .ok ('/' :: stringsJoin
      ((stringsSplit s '/').filter (fun part => part ≠ [])) ['/']) := by
  have h3 : stringsContains s [' '] = false := by
    rw [Bool.eq_false_iff]
    exact fun h => h2 ((stringsContains_singleton s ' ').mp h)
  simp only [getValidPattern, h1, h3, if_false]
  rw [clean_stringsTrim]
  simp

theorem getValidPattern_cases (s : GoString) :
    (stringsTrimSpace s = [] ∧ getValidPattern s = .ok []) ∨
    (stringsTrimSpace s ≠ [] ∧ ' ' ∈ s ∧ getValidPattern s = .error (invalidPatternMsg s)) ∨
    (stringsTrimSpace s ≠ [] ∧ ' ' ∉ s ∧ getValidPattern s = .ok ('/' :: stringsJoin
      ((stringsSplit s '/').filter (fun part => part ≠ [])) ['/'])) := by
  by_cases h1 : stringsTrimSpace s = []
  · exact Or.inl ⟨h1, getValidPattern_blank s h1⟩
  · by_cases h2 : ' ' ∈ s
    · exact Or.inr (Or.inl ⟨h1, h2, getValidPattern_space s h1 h2⟩)
    · exact Or.inr (Or.inr ⟨h1, h2, getValidPattern_clean s h1 h2⟩)

theorem stringsTrimSpace_ne_nil_of_slash (t : GoString) :
    stringsTrimSpace ('/' :: t) ≠ [] := by
  unfold stringsTrimSpace stringsTrimLeftFunc stringsTrimRightFunc
  have hns : unicodeIsSpace '/' = false := by decide
  rw [List.dropWhile_cons]
  simp only [hns, Bool.false_eq_true, if_false]
  intro h
  have h2 := congrArg List.reverse h
  rw [List.reverse_reverse, List.reverse_nil, List.dropWhile_eq_nil_iff] at h2
  have := h2 '/' (by simp)
  rw [hns] at this
  cases this

/-- The result of the normaliser on segments is a fixed point of the normaliser. -/
theorem getValidPattern_join (segs : List GoString)
    (h : ∀ seg ∈ segs, (seg ≠ [] ∧ '/' ∉ seg) ∧ ' ' ∉ seg) :
    getValidPattern ('/' :: stringsJoin segs ['/']) = .ok ('/' :: stringsJoin segs ['/']) := by
  have hsp : ' ' ∉ ('/' :: stringsJoin segs ['/']) := by
    intro hm
    rcases List.mem_cons.mp hm with e | e
    · exact absurd e (by decide)
    · rcases mem_stringsJoin _ _ _ e with h1 | ⟨seg, hs, hc⟩
      · simp at h1
      · exact (h seg hs).2 hc
  rw [getValidPattern_clean _ (stringsTrimSpace_ne_nil_of_slash _) hsp]
  have hsplit : stringsSplit ('/' :: stringsJoin segs ['/']) '/'
      = [] :: stringsSplit (stringsJoin segs ['/']) '/' := by
    simp [stringsSplit]
  rw [hsplit]
  have hf : ([] :: stringsSplit (stringsJoin segs ['/']) '/').filter (fun part => part ≠ [])
      = (stringsSplit (stringsJoin segs ['/']) '/').filter (fun part => part ≠ []) := by
    simp
  rw [hf, clean_split_join segs '/' (fun seg hs => (h seg hs).1)]

/-- C10. The normaliser is idempotent: whenever `getValidPattern(s)` returns a
pattern `p` (it does not panic), `getValidPattern(p)` returns `p` as well. -/
theorem getValidPattern_idempotent (s p : GoString) (h : getValidPattern s = .ok p) :
    getValidPattern p = .ok p := by
  rcases getValidPattern_cases s with ⟨_, h2⟩ | ⟨_, _, h2⟩ | ⟨_, hsp, h2⟩
  · rw [h2] at h
    cases h
    rfl
  · rw [h2] at h
    cases h
  · rw [h2] at h
    cases h
    apply getValidPattern_join
    intro seg hseg
    rw [← clean_stringsTrim] at hseg
    obtain ⟨h3, h4⟩ := cleanParts_spec s seg hseg
    exact ⟨h3, fun hc => hsp (h4 _ hc)⟩

/-- Witness of C10: "a//b/" is normalised to "/a/b", a fixed point. -/
theorem getValidPattern_idempotent_witness :
    getValidPattern ['/', 'a', '/', 'b'] = .ok ['/', 'a', '/', 'b'] :=
  getValidPattern_idempotent ['a', '/', '/', 'b', '/'] ['/', 'a', '/', 'b'] rfl


/-! ## Patterns of groups and keys of the table -/

/-- C8. The prefix of a subgroup is the prefix of its parent followed by the
normalised child prefix. A route registered through a group with a pattern
normalised to `p`, the pair being free, is stored in the table under
`group prefix ++ p` with its method, carries that pattern and method, and a
request for that path and method is dispatched to its wrapped handler. With
the prefixes "/a", "/b" and the pattern "/c" the route is found at "/a/b/c". -/
theorem group_path_resolution {H : Type} (growCap : Nat → Nat → Nat) (s : State H)
    (gr : GroupRoute) (router : Router H) (pfx q pattern p method : GoString)
    (m : List (H → H)) (h : H)
    (hq : getValidPattern pfx = .ok q) (hp : getValidPattern pattern = .ok p)
    (hfree : GoMap.lookup s.routesMap (gr.pattern ++ p) method = none) :
    (∃ sub s1, GroupRoute.RegisterGroupRoute growCap s gr pfx m = .ret sub s1 ∧
      sub.pattern = gr.pattern ++ q) ∧
    (∃ r s2 route, GroupRoute.RegisterRoute method s gr pattern h = .ret r s2 ∧
      GoMap.lookup s2.routesMap (gr.pattern ++ p) method = some r ∧
      s2.routes[r]? = some route ∧
      route.pattern = gr.pattern ++ p ∧ route.method = method ∧
      Router.getHandler s2 router ⟨gr.pattern ++ p, method⟩ = .ok route.handler) ∧
    (RegisterGroupRoute ['/', 'a'] parentA.1.middlewares = .ok parentA.1 ∧
      subgroupAB.val? = some ⟨['/', 'a', '/', 'b'], ⟨1, 2, 2⟩⟩ ∧
      routeABC.val? = some 0 ∧
      GoMap.lookup routeABC.state.routesMap ['/', 'a', '/', 'b', '/', 'c'] MethodGet = some 0 ∧
      (routeABC.state.routes[0]?).map (fun rt => rt.pattern)
        = some ['/', 'a', '/', 'b', '/', 'c'] ∧
      Router.getHandler routeABC.state traceRouter ⟨['/', 'a', '/', 'b', '/', 'c'], MethodGet⟩
        = (routeABC.state.routes[0]?).elim (.error nilDerefMsg) (fun rt => .ok rt.handler)) := by
  refine ⟨⟨_, _, subgroupRegister_ok growCap s gr pfx q m hq, rfl⟩, ?_,
    ⟨rfl, rfl, rfl, rfl, rfl, rfl⟩⟩
  have hlook : GoMap.lookup (s.routesMap.set (gr.pattern ++ p)
      ((GoMap.empty : GoMap Nat).set method s.routes.length)) (gr.pattern ++ p) method
      = some s.routes.length := by
    rw [GoMap.lookup_set_same, GoMap.get_set_same]
  refine ⟨_, _,
    { handler := wrapLoop (s.elems gr.middlewares) gr.middlewares.len h,
      original := h, pattern := gr.pattern ++ p, method := method,
      middlewares := gr.middlewares, group := some gr },
    groupRegister_ok method s gr pattern p h hp hfree, hlook, ?_, rfl, rfl, ?_⟩
  · simp
  · simp [Router.getHandler, GoMap.get_set_same]

/-- Witness of C8: a subgroup "/b" and a route GET "/c" made from the group "/a". -/
theorem group_path_resolution_witness :
    (∃ sub s1, GroupRoute.RegisterGroupRoute goGrowCap parentA.2 parentA.1 ['/', 'b'] [logMw 2]
        = .ret sub s1 ∧ sub.pattern = parentA.1.pattern ++ ['/', 'b']) ∧
    (∃ r s2 route, GroupRoute.RegisterRoute MethodGet parentA.2 parentA.1 ['c', '/'] [0]
        = .ret r s2 ∧
      GoMap.lookup s2.routesMap (parentA.1.pattern ++ ['/', 'c']) MethodGet = some r ∧
      s2.routes[r]? = some route ∧
      route.pattern = parentA.1.pattern ++ ['/', 'c'] ∧ route.method = MethodGet ∧
      Router.getHandler s2 traceRouter ⟨parentA.1.pattern ++ ['/', 'c'], MethodGet⟩
        = .ok route.handler) :=
  ⟨(group_path_resolution goGrowCap parentA.2 parentA.1 traceRouter ['/', 'b'] ['/', 'b']
      ['c', '/'] ['/', 'c'] MethodGet [logMw 2] [0] rfl rfl rfl).1,
   (group_path_resolution goGrowCap parentA.2 parentA.1 traceRouter ['/', 'b'] ['/', 'b']
      ['c', '/'] ['/', 'c'] MethodGet [logMw 2] [0] rfl rfl rfl).2.1⟩

theorem slashJoin_append (a b : List GoString) :
    slashJoin (a ++ b) = slashJoin a ++ slashJoin b := by
  induction a with
  | nil => rfl
  | cons seg rest ih => simp [slashJoin, ih]

theorem slashJoin_eq_join (segs : List GoString) (h : segs ≠ []) :
    '/' :: stringsJoin segs ['/'] = slashJoin segs := by
  unfold stringsJoin
  induction segs with
  | nil => exact absurd rfl h
  | cons a rest ih =>
    cases rest with
    | nil => simp [List.intercalate, List.intersperse, slashJoin]
    | cons b rest2 =>
      rw [intercalate_cons_cons, slashJoin, ← ih (by simp)]
      simp

theorem IsJoined.append {p q : GoString} (hp : IsJoined p) (hq : IsJoined q) :
    IsJoined (p ++ q) := by
  obtain ⟨a, ha1, ha2, ha3⟩ := hp
  obtain ⟨b, _, hb2, hb3⟩ := hq
  refine ⟨a ++ b, by simp [ha1], ?_, by rw [slashJoin_append, ha3, hb3]⟩
  intro seg hseg
  rcases List.mem_append.mp hseg with h | h
  · exact ha2 seg h
  · exact hb2 seg h

theorem joined_or_nil_append {p q : GoString} (hp : p = [] ∨ IsJoined p)
    (hq : q = [] ∨ IsJoined q) : p ++ q = [] ∨ IsJoined (p ++ q) := by
  rcases hp with hp | hp
  · rcases hq with hq | hq
    · exact Or.inl (by simp [hp, hq])
    · exact Or.inr (by simpa [hp] using hq)
  · rcases hq with hq | hq
    · exact Or.inr (by simpa [hq] using hp)
    · exact Or.inr (hp.append hq)

theorem getValidPattern_shape (s p : GoString) (h : getValidPattern s = .ok p) :
    p = [] ∨ p = ['/'] ∨ IsJoined p := by
  rcases getValidPattern_cases s with ⟨_, h2⟩ | ⟨_, _, h2⟩ | ⟨_, _, h2⟩
  · rw [h2] at h; cases h; exact Or.inl rfl
  · rw [h2] at h; cases h
  · rw [h2] at h
    cases h
    by_cases hs : (stringsSplit s '/').filter (fun part => part ≠ []) = []
    · rw [hs]; exact Or.inr (Or.inl (by simp [stringsJoin, List.intercalate]))
    · refine Or.inr (Or.inr ⟨_, hs, ?_, (slashJoin_eq_join _ hs)⟩)
      intro seg hseg
      rw [← clean_stringsTrim] at hseg
      exact (cleanParts_spec s seg hseg).1

theorem doubleSlash_cons_ne (c : Char) (t : GoString) (h : c ≠ '/') :
    stringsContains (c :: t) ['/', '/'] = stringsContains t ['/', '/'] := by
  have h2 : ('/' == c) = false := by
    rw [beq_eq_false_iff_ne]
    exact fun e => h e.symm
  simp [stringsContains, List.isPrefixOf, h2]

theorem doubleSlash_slash (t : GoString) (h : t.head? ≠ some '/') :
    stringsContains ('/' :: t) ['/', '/'] = stringsContains t ['/', '/'] := by
  cases t with
  | nil => simp [stringsContains, List.isPrefixOf]
  | cons d ds =>
    have h2 : ('/' == d) = false := by
      rw [beq_eq_false_iff_ne]
      intro e
      exact h (by simp [← e])
    simp [stringsContains, List.isPrefixOf, h2]

theorem doubleSlash_append (a t : GoString) (h : '/' ∉ a) :
    stringsContains (a ++ t) ['/', '/'] = stringsContains t ['/', '/'] := by
  induction a with
  | nil => rfl
  | cons c cs ih =>
    have hc : c ≠ '/' := fun e => h (by simp [e])
    rw [List.cons_append, doubleSlash_cons_ne _ _ hc,
      ih (fun e => h (List.mem_cons_of_mem _ e))]

theorem slashJoin_head (segs : List GoString) :
    (slashJoin segs).head? ≠ some '/' → segs = [] := by
  cases segs with
  | nil => intro _; rfl
  | cons a rest => intro h; simp [slashJoin] at h

theorem slashJoin_no_doubleSlash (segs : List GoString) (h : GoodSegments segs) :
    stringsContains (slashJoin segs) ['/', '/'] = false := by
  induction segs with
  | nil => simp [slashJoin, stringsContains, List.isPrefixOf]
  | cons a rest ih =>
    obtain ⟨ha1, ha2⟩ := h a (by simp)
    have ihr := ih (fun seg hseg => h seg (List.mem_cons_of_mem _ hseg))
    cases a with
    | nil => exact absurd rfl ha1
    | cons c cs =>
      have hc : c ≠ '/' := fun e => ha2 (by simp [e])
      rw [slashJoin, List.cons_append,
        doubleSlash_slash ((c :: cs) ++ slashJoin rest) (by simp [hc]),
        doubleSlash_append _ _ ha2]
      exact ihr

theorem slashJoin_last (segs : List GoString) (h : GoodSegments segs) (x : Char)
    (hx : (slashJoin segs).getLast? = some x) : x ≠ '/' := by
  induction segs with
  | nil => simp [slashJoin] at hx
  | cons a rest ih =>
    obtain ⟨ha1, ha2⟩ := h a (by simp)
    have hsplit : slashJoin (a :: rest) = ('/' :: a) ++ slashJoin rest := by
      simp [slashJoin]
    rw [hsplit, List.getLast?_append] at hx
    cases hr : (slashJoin rest).getLast? with
    | some y =>
      rw [hr] at hx
      simp at hx
      subst hx
      exact ih (fun seg hseg => h seg (List.mem_cons_of_mem _ hseg)) hr
    | none =>
      rw [hr] at hx
      simp only [Option.none_or] at hx
      cases a with
      | nil => exact absurd rfl ha1
      | cons c cs =>
        rw [List.getLast?_cons_cons] at hx
        intro e
        exact ha2 (e ▸ List.mem_of_mem_getLast? hx)

theorem IsJoined.wellFormed {p : GoString} (h : IsJoined p) : wellFormedPattern p = true := by
  obtain ⟨segs, h1, h2, h3⟩ := h
  subst h3
  have hds := slashJoin_no_doubleSlash segs h2
  have hlast := slashJoin_last segs h2
  cases segs with
  | nil => exact absurd rfl h1
  | cons a rest =>
    obtain ⟨ha1, ha2⟩ := h2 a (by simp)
    cases a with
    | nil => exact absurd rfl ha1
    | cons c cs =>
      have hc : c ≠ '/' := fun e => ha2 (by simp [e])
      have hl : (slashJoin ((c :: cs) :: rest)).getLast? ≠ some '/' :=
        fun e => hlast '/' e rfl
      unfold wellFormedPattern
      rw [hds]
      simp only [Bool.not_false, Bool.and_true, Bool.and_eq_true, Bool.or_eq_true]
      refine ⟨⟨by simp [slashJoin], by simp [slashJoin, hc]⟩, Or.inr ?_⟩
      simpa using hl

theorem joined_or_nil_ok {p : GoString} (h : p = [] ∨ IsJoined p) :
    p = [] ∨ wellFormedPattern p = true :=
  h.imp id IsJoined.wellFormed

theorem getValidPattern_ok_wellFormed (s p : GoString) (h : getValidPattern s = .ok p) :
    p = [] ∨ wellFormedPattern p = true := by
  rcases getValidPattern_shape s p h with h1 | h1 | h1
  · exact Or.inl h1
  · exact Or.inr (by rw [h1]; rfl)
  · exact Or.inr h1.wellFormed

theorem getValidPattern_not_root (s p : GoString) (h : getValidPattern s = .ok p)
    (hroot : normalisesToRoot s = false) : p = [] ∨ IsJoined p := by
  rcases getValidPattern_shape s p h with h1 | h1 | h1
  · exact Or.inl h1
  · simp [normalisesToRoot, h, h1] at hroot
  · exact Or.inr h1

theorem GoMap.mem_keys_set {V : Type} (m : GoMap V) (k k2 : GoString) (v : V)
    (h : k2 ∈ (m.set k v).keys) : k2 = k ∨ k2 ∈ m.keys := by
  simp only [GoMap.keys, GoMap.set, List.map_cons, List.mem_cons, List.mem_map] at h
  rcases h with h | ⟨e, he, rfl⟩
  · exact Or.inl h
  · exact Or.inr (List.mem_map.mpr ⟨e, (List.mem_filter.mp he).1, rfl⟩)

theorem Verb.onRouter_eq {H : Type} (v : Verb) :
    (v.onRouter : State H → GoString → H → Outcome (State H) Nat)
      = Router.RegisterRoute v.method := by
  cases v <;> rfl

theorem Verb.onGroup_eq {H : Type} (v : Verb) :
    (v.onGroup : State H → GroupRoute → GoString → H → Outcome (State H) Nat)
      = GroupRoute.RegisterRoute v.method := by
  cases v <;> rfl


/-! ## The patterns along a sequence of calls -/

theorem variadic_frame {H : Type} (s : State H) (m : List (H → H)) :
    (s.variadic m).2.routes = s.routes ∧ (s.variadic m).2.routesMap = s.routesMap := by
  cases m <;> exact ⟨rfl, rfl⟩

theorem Env.patternsOk_init (H : Type) : (Env.init H).PatternsOk := by
  refine ⟨?_, ?_, ?_⟩ <;> intro x hx <;> simp [Env.init, State.init, GoMap.keys, GoMap.empty] at hx

theorem Env.patternsOk_register {H : Type} (e : Env H) (hinv : e.PatternsOk) (p : GoString)
    (routes : GoMap Nat) (newRoute : Route H) (hpat : newRoute.pattern = p)
    (hp : p = [] ∨ wellFormedPattern p = true) :
    Env.PatternsOk { e with state := { e.state with
      routes := e.state.routes ++ [newRoute]
      routesMap := e.state.routesMap.set p routes } } := by
  obtain ⟨h1, h2, h3⟩ := hinv
  refine ⟨h1, ?_, ?_⟩
  · intro k hk
    rcases GoMap.mem_keys_set _ _ _ _ hk with e1 | e1
    · rw [e1]; exact hp
    · exact h2 k e1
  · intro rt hrt
    simp only [List.mem_append, List.mem_singleton] at hrt
    rcases hrt with e1 | e1
    · exact h3 rt e1
    · rw [e1, hpat]; exact hp

theorem Env.patternsOk_group {H : Type} (e : Env H) (hinv : e.PatternsOk) (s2 : State H)
    (gr : GroupRoute) (hr : s2.routes = e.state.routes) (hm : s2.routesMap = e.state.routesMap)
    (hg : gr.pattern = [] ∨ IsJoined gr.pattern) :
    Env.PatternsOk { state := s2, groups := e.groups ++ [gr] } := by
  obtain ⟨h1, h2, h3⟩ := hinv
  refine ⟨?_, ?_, ?_⟩
  · intro g hgm
    simp only [List.mem_append, List.mem_singleton] at hgm
    rcases hgm with e1 | e1
    · exact h1 g e1
    · rw [e1]; exact hg
  · intro k hk
    simp only [hm] at hk
    exact h2 k hk
  · intro rt hrt
    simp only [hr] at hrt
    exact h3 rt hrt

theorem Call.run_patternsOk {H : Type} (growCap : Nat → Nat → Nat) (e e2 : Env H)
    (c : Call H) (hinv : e.PatternsOk) (hroot : c.groupRoot = false)
    (hrun : c.run growCap e = some e2) : e2.PatternsOk := by
  cases c with
  | routerRoute v pattern handler =>
    simp only [Call.run, Verb.onRouter_eq] at hrun
    cases hres : Router.RegisterRoute v.method e.state pattern handler with
    | panic msg s => simp [hres] at hrun
    | ret r s2 =>
      simp only [hres, Option.some.injEq] at hrun
      obtain ⟨p, hp, _, _, hs2⟩ := routerRegister_ret _ _ _ _ _ _ hres
      rw [← hrun, hs2]
      exact Env.patternsOk_register e hinv p _ _ rfl (getValidPattern_ok_wellFormed _ _ hp)
  | newGroup pattern m =>
    simp only [Call.run, RegisterGroupRoute] at hrun
    cases hp : getValidPattern pattern with
    | error msg => simp [hp] at hrun
    | ok p =>
      simp only [hp, Option.some.injEq] at hrun
      rw [← hrun]
      exact Env.patternsOk_group e hinv _ _ (variadic_frame _ _).1 (variadic_frame _ _).2
        (getValidPattern_not_root _ _ hp hroot)
  | subGroup g pattern m =>
    simp only [Call.run] at hrun
    cases hg : e.groups[g]? with
    | none => simp [hg] at hrun
    | some gr =>
      simp only [hg] at hrun
      cases hp : getValidPattern pattern with
      | error msg => simp [GroupRoute.RegisterGroupRoute, hp] at hrun
      | ok q =>
        rw [subgroupRegister_ok growCap _ _ _ _ _ hp] at hrun
        simp only [Option.some.injEq] at hrun
        rw [← hrun]
        have hmem : gr ∈ e.groups := List.getElem?_mem hg
        exact Env.patternsOk_group e hinv _ _ (append_routes _ _ _ _).1 (append_routes _ _ _ _).2
          (joined_or_nil_append (hinv.1 gr hmem) (getValidPattern_not_root _ _ hp hroot))
  | groupRoute g v pattern handler =>
    simp only [Call.run, Verb.onGroup_eq] at hrun
    cases hg : e.groups[g]? with
    | none => simp [hg] at hrun
    | some gr =>
      simp only [hg] at hrun
      cases hres : GroupRoute.RegisterRoute v.method e.state gr pattern handler with
      | panic msg s => simp [hres] at hrun
      | ret r s2 =>
        simp only [hres, Option.some.injEq] at hrun
        obtain ⟨p, hp, _, _, hs2⟩ := groupRegister_ret _ _ _ _ _ _ _ hres
        rw [← hrun, hs2]
        have hmem : gr ∈ e.groups := List.getElem?_mem hg
        exact Env.patternsOk_register e hinv (gr.pattern ++ p) _ _ rfl
          (joined_or_nil_ok
            (joined_or_nil_append (hinv.1 gr hmem) (getValidPattern_not_root _ _ hp hroot)))
  | middleware r m =>
    simp only [Call.run] at hrun
    cases hr : e.state.routes[r]? with
    | none => simp [Route.Middleware, hr] at hrun
    | some route =>
      obtain ⟨s2, route2, k1, _, ⟨k3, k4⟩, _, _, k6, _, _⟩ :=
        Middleware_spec growCap e.state r route m hr
      simp only [k1, Option.some.injEq] at hrun
      rw [← hrun]
      obtain ⟨h1, h2, h3⟩ := hinv
      refine ⟨h1, ?_, ?_⟩
      · intro k hk
        simp only [k3] at hk
        exact h2 k hk
      · intro rt hrt
        simp only [k4] at hrt
        rcases List.mem_or_eq_of_mem_set hrt with e1 | e1
        · exact h3 rt e1
        · rw [e1, k6]
          exact h3 route (List.getElem?_mem hr)

theorem runCalls_patternsOk {H : Type} (growCap : Nat → Nat → Nat) (calls : List (Call H))
    (e e2 : Env H) (hinv : e.PatternsOk) (hroot : ∀ c ∈ calls, c.groupRoot = false)
    (hrun : runCalls growCap e calls = some e2) : e2.PatternsOk := by
  induction calls generalizing e with
  | nil =>
    simp only [runCalls, Option.some.injEq] at hrun
    rw [← hrun]; exact hinv
  | cons c rest ih =>
    simp only [runCalls] at hrun
    cases hc : c.run growCap e with
    | none => simp [hc] at hrun
    | some e1 =>
      simp only [hc] at hrun
      exact ih e1 (Call.run_patternsOk growCap e e1 c hinv (hroot c (by simp)) hc)
        (fun d hd => hroot d (List.mem_cons_of_mem _ hd)) hrun

/-- C9 (as amended). After any sequence of successful calls of the registration
methods of Router and of (nested) groups and of `Middleware`, started from the
empty table, in which no group prefix and no pattern registered through a group
is normalised to the root "/", every key of the route table and every
`Route.pattern` is either empty or begins with exactly one "/", does not end
with "/" unless it is the root, and contains no "//". -/
theorem patterns_wellFormed_or_empty {H : Type} (growCap : Nat → Nat → Nat)
    (calls : List (Call H)) (e : Env H)
    (hrun : runCalls growCap (Env.init H) calls = some e)
    (hroot : ∀ c ∈ calls, c.groupRoot = false) :
    (∀ k ∈ e.state.routesMap.keys, k = [] ∨ wellFormedPattern k = true) ∧
    (∀ rt ∈ e.state.routes, rt.pattern = [] ∨ wellFormedPattern rt.pattern = true) :=
  (runCalls_patternsOk growCap calls (Env.init H) e (Env.patternsOk_init H) hroot hrun).2

/-- Witness of C9 (as amended): the calls `g := RegisterGroupRoute("/a")`, `sub := g.RegisterGroupRoute("b")`,
`sub.RegisterRouteGET("/c/", h)` and `router.RegisterRoutePUT("/", h)`. -/
theorem patterns_wellFormed_or_empty_witness :
    ∃ e : Env Trace, runCalls goGrowCap (Env.init Trace)
        [.newGroup ['/', 'a'] [], .subGroup 0 ['b'] [],
          .groupRoute 1 .GET ['/', 'c', '/'] [0], .routerRoute .PUT ['/'] [0]] = some e ∧
      e.state.routesMap.keys = [['/'], ['/', 'a', '/', 'b', '/', 'c']] ∧
      (∀ k ∈ e.state.routesMap.keys, k = [] ∨ wellFormedPattern k = true) ∧
      (∀ rt ∈ e.state.routes, rt.pattern = [] ∨ wellFormedPattern rt.pattern = true) :=
  ⟨_, rfl, rfl, patterns_wellFormed_or_empty goGrowCap
    [.newGroup ['/', 'a'] [], .subGroup 0 ['b'] [],
      .groupRoute 1 .GET ['/', 'c', '/'] [0], .routerRoute .PUT ['/'] [0]] _ rfl
    (by intro c hc; simp only [List.mem_cons, List.mem_singleton, List.not_mem_nil, or_false] at hc
        rcases hc with h | h | h | h <;> rw [h] <;> rfl)⟩

/-- C9 as stated fails: `RegisterRouteGET("", h)` on the Router succeeds and
stores the route under the empty key; through the group "/" the pattern "/x"
is stored under "//x"; through the group "/a" the pattern "/" is stored under
"/a/". None of these keys satisfies the invariant. -/
theorem patterns_not_always_wellFormed :
    ((runCalls goGrowCap (Env.init Trace) [.routerRoute .GET [] [0]]).map
      (fun e => (e.state.routesMap.keys, e.state.routes.map (fun rt => rt.pattern))))
      = some ([[]], [[]]) ∧
    wellFormedPattern [] = false ∧
    ((runCalls goGrowCap (Env.init Trace)
      [.newGroup ['/'] [], .groupRoute 0 .GET ['/', 'x'] [0]]).map
      (fun e => (e.state.routesMap.keys, e.state.routes.map (fun rt => rt.pattern))))
      = some ([['/', '/', 'x']], [['/', '/', 'x']]) ∧
    wellFormedPattern ['/', '/', 'x'] = false ∧
    ((runCalls goGrowCap (Env.init Trace)
      [.newGroup ['/', 'a'] [], .groupRoute 0 .GET ['/'] [0]]).map
      (fun e => (e.state.routesMap.keys, e.state.routes.map (fun rt => rt.pattern))))
      = some ([['/', 'a', '/']], [['/', 'a', '/']]) ∧
    wellFormedPattern ['/', 'a', '/'] = false :=
  ⟨rfl, rfl, rfl, rfl, rfl, rfl⟩


/-! ## The result of the normaliser -/

theorem getValidPattern_segments (s : GoString) (h1 : stringsTrimSpace s ≠ [])
    (h2 : ' ' ∉ s) :
    getValidPattern s = .ok ('/' :: stringsJoin (pathSegments s) ['/']) :=
  getValidPattern_clean s h1 h2

theorem getValidPattern_no_space (s p : GoString) (h : getValidPattern s = .ok p) :
    ' ' ∉ p := by
  rcases getValidPattern_cases s with ⟨_, h2⟩ | ⟨_, _, h2⟩ | ⟨_, hsp, h2⟩
  · rw [h2] at h; cases h; simp
  · rw [h2] at h; cases h
  · rw [h2] at h
    cases h
    intro hm
    rcases List.mem_cons.mp hm with e | e
    · exact absurd e (by decide)
    · rcases mem_stringsJoin _ _ _ e with h3 | ⟨seg, hs, hc⟩
      · simp at h3
      · rw [← clean_stringsTrim] at hs
        exact hsp ((cleanParts_spec s seg hs).2 _ hc)

/-- C11. `getValidPattern("")` is `""`, and for every input that is not blank
and has no space the result is "/" followed by the non-empty segments of the
input joined by "/"; this result begins with exactly one "/", does not end with
"/" unless it is "/", and has no "//". The inputs "test/", "/test/" and "test"
give "/test"; "a//b" and "a//b/" give "/a/b". -/
theorem getValidPattern_result :
    getValidPattern [] = .ok [] ∧
    (∀ s, stringsTrimSpace s ≠ [] → ' ' ∉ s →
      getValidPattern s = .ok ('/' :: stringsJoin (pathSegments s) ['/']) ∧
      wellFormedPattern ('/' :: stringsJoin (pathSegments s) ['/']) = true) ∧
    getValidPattern ['t', 'e', 's', 't', '/'] = .ok ['/', 't', 'e', 's', 't'] ∧
    getValidPattern ['/', 't', 'e', 's', 't', '/'] = .ok ['/', 't', 'e', 's', 't'] ∧
    getValidPattern ['t', 'e', 's', 't'] = .ok ['/', 't', 'e', 's', 't'] ∧
    getValidPattern ['a', '/', '/', 'b'] = .ok ['/', 'a', '/', 'b'] ∧
    getValidPattern ['a', '/', '/', 'b', '/'] = .ok ['/', 'a', '/', 'b'] := by
  refine ⟨rfl, ?_, rfl, rfl, rfl, rfl, rfl⟩
  intro s h1 h2
  have h3 := getValidPattern_segments s h1 h2
  refine ⟨h3, ?_⟩
  rcases getValidPattern_ok_wellFormed s _ h3 with h4 | h4
  · cases h4
  · exact h4

/-- Witness of C11: the input "//a///b c/" without its space, "//a///bc/". -/
theorem getValidPattern_result_witness :
    getValidPattern ['/', '/', 'a', '/', '/', '/', 'b', 'c', '/']
      = .ok ('/' :: stringsJoin (pathSegments ['/', '/', 'a', '/', '/', '/', 'b', 'c', '/']) ['/']) ∧
    wellFormedPattern
      ('/' :: stringsJoin (pathSegments ['/', '/', 'a', '/', '/', '/', 'b', 'c', '/']) ['/'])
      = true :=
  getValidPattern_result.2.1 ['/', '/', 'a', '/', '/', '/', 'b', 'c', '/']
    (by decide) (by decide)

theorem routerRegister_invalid {H : Type} (method : GoString) (st : State H)
    (s msg : GoString) (h : H) (hs : getValidPattern s = .error msg) :
    Router.RegisterRoute method st s h = .panic msg st := by
  unfold Router.RegisterRoute
  simp only [hs]

theorem groupRegister_invalid {H : Type} (method : GoString) (st : State H)
    (gr : GroupRoute) (s msg : GoString) (h : H) (hs : getValidPattern s = .error msg) :
    GroupRoute.RegisterRoute method st gr s h = .panic msg st := by
  unfold GroupRoute.RegisterRoute
  simp only [hs]

theorem subgroupRegister_invalid {H : Type} (growCap : Nat → Nat → Nat) (st : State H)
    (gr : GroupRoute) (s msg : GoString) (m : List (H → H))
    (hs : getValidPattern s = .error msg) :
    GroupRoute.RegisterGroupRoute growCap st gr s m = .panic msg st := by
  unfold GroupRoute.RegisterGroupRoute
  simp only [hs]

/-- C12 (as amended). For every string `s` that has a space and is not blank,
`getValidPattern(s)` panics with the invalid pattern message and returns no
pattern; every registration method of Router and of a group, and the creation
of a group or subgroup, called with `s` panics with that message and leaves the
state, hence the route table, as it was. -/
theorem getValidPattern_rejects_space {H : Type} (growCap : Nat → Nat → Nat) (s : GoString)
    (hsp : ' ' ∈ s) (hnb : stringsTrimSpace s ≠ []) :
    getValidPattern s = .error (invalidPatternMsg s) ∧
    (∀ (v : Verb) (st : State H) (h : H),
      v.onRouter st s h = .panic (invalidPatternMsg s) st) ∧
    (∀ (v : Verb) (st : State H) (gr : GroupRoute) (h : H),
      v.onGroup st gr s h = .panic (invalidPatternMsg s) st) ∧
    (∀ sl, RegisterGroupRoute s sl = .error (invalidPatternMsg s)) ∧
    (∀ (st : State H) (gr : GroupRoute) (m : List (H → H)),
      GroupRoute.RegisterGroupRoute growCap st gr s m = .panic (invalidPatternMsg s) st) := by
  have hs := getValidPattern_space s hnb hsp
  refine ⟨hs, ?_, ?_, ?_, ?_⟩
  · intro v st h
    rw [Verb.onRouter_eq]
    exact routerRegister_invalid _ st s _ h hs
  · intro v st gr h
    rw [Verb.onGroup_eq]
    exact groupRegister_invalid _ st gr s _ h hs
  · intro sl
    simp only [RegisterGroupRoute, hs]
  · intro st gr m
    exact subgroupRegister_invalid growCap st gr s _ m hs

/-- Witness of C12 (as amended): the pattern "a b". -/
theorem getValidPattern_rejects_space_witness :
    getValidPattern ['a', ' ', 'b'] = .error (invalidPatternMsg ['a', ' ', 'b']) ∧
    Router.RegisterRouteGET (State.init Trace) ['a', ' ', 'b'] [0]
      = .panic (invalidPatternMsg ['a', ' ', 'b']) (State.init Trace) :=
  ⟨(getValidPattern_rejects_space (H := Trace) goGrowCap ['a', ' ', 'b']
      (by decide) (by decide)).1,
   (getValidPattern_rejects_space (H := Trace) goGrowCap ['a', ' ', 'b']
      (by decide) (by decide)).2.1 .GET (State.init Trace) [0]⟩

/-- C12 as stated fails: the string " " has a space, yet `getValidPattern(" ")`
returns the empty pattern without a panic, and `RegisterRouteGET(" ", h)` on the
Router inserts a route, under the empty key. -/
theorem getValidPattern_accepts_blank_space :
    ' ' ∈ [' '] ∧
    getValidPattern [' '] = .ok [] ∧
    (Router.RegisterRouteGET (State.init Trace) [' '] [0]).failed = false ∧
    GoMap.lookup (Router.RegisterRouteGET (State.init Trace) [' '] [0]).state.routesMap
      [] MethodGet = some 0 :=
  ⟨by decide, rfl, rfl, rfl⟩

/-- C16 (as amended). For every input on which `getValidPattern` succeeds the
result has no space character, and every input that is not blank and has a
space is rejected with a panic. -/
theorem getValidPattern_result_no_space (s : GoString) :
    (∀ p, getValidPattern s = .ok p → ' ' ∉ p) ∧
    (stringsTrimSpace s ≠ [] → ' ' ∈ s →
      getValidPattern s = .error (invalidPatternMsg s)) :=
  ⟨fun p h => getValidPattern_no_space s p h, fun h1 h2 => getValidPattern_space s h1 h2⟩

/-- Witness of C16 (as amended): "a//b/" gives "/a/b", and " a" is rejected. -/
theorem getValidPattern_result_no_space_witness :
    ' ' ∉ ['/', 'a', '/', 'b'] ∧
    getValidPattern [' ', 'a'] = .error (invalidPatternMsg [' ', 'a']) :=
  ⟨(getValidPattern_result_no_space ['a', '/', '/', 'b', '/']).1 ['/', 'a', '/', 'b'] rfl,
   (getValidPattern_result_no_space [' ', 'a']).2 (by decide) (by decide)⟩

/-- C16 as stated fails: the input "a", tab, "b" is accepted, and the pattern
returned, "/a", tab, "b", contains the white space character tab; registering
it on the Router inserts a route under that key. -/
theorem getValidPattern_keeps_tab :
    getValidPattern ['a', '\t', 'b'] = .ok ['/', 'a', '\t', 'b'] ∧
    unicodeIsSpace '\t' = true ∧
    '\t' ∈ ['/', 'a', '\t', 'b'] ∧
    GoMap.lookup (Router.RegisterRouteGET (State.init Trace) ['a', '\t', 'b'] [0]).state.routesMap
      ['/', 'a', '\t', 'b'] MethodGet = some 0 :=
  ⟨rfl, by decide, by decide, rfl⟩


/-! ## Registration of equivalent patterns, literal dispatch, default fallbacks -/

theorem routerRegister_holds {H : Type} (method : GoString) (st : State H)
    (s p : GoString) (h : H) (hs : getValidPattern s = .ok p) :
    (GoMap.lookup (Router.RegisterRoute method st s h).state.routesMap p method).isSome
      = true := by
  unfold Router.RegisterRoute
  simp only [hs]
  rcases registerRoute_cases st.routesMap p method st.routes.length with ⟨h1, h2⟩ | ⟨_, h2⟩
  · rw [h2]
    simpa [Outcome.state] using h1
  · rw [h2]
    simp [Outcome.state, GoMap.lookup_set_same, GoMap.get_set_same]

theorem routerRegister_dup {H : Type} (method : GoString) (st : State H)
    (s p : GoString) (h : H) (hs : getValidPattern s = .ok p)
    (hheld : (GoMap.lookup st.routesMap p method).isSome = true) :
    ∃ st2, Router.RegisterRoute method st s h = .panic (routeExistsMsg method p) st2 ∧
      st2.routesMap = st.routesMap := by
  unfold Router.RegisterRoute
  simp only [hs]
  rw [registerRoute_of_dup _ _ _ _ hheld]
  exact ⟨_, rfl, rfl⟩

theorem pathSegments_slashes (s : GoString) :
    pathSegments ('/' :: (s ++ ['/'])) = pathSegments s := by
  unfold pathSegments
  have h1 : ∀ c ∈ ['/'], c = '/' := fun c hc => by simpa using hc
  rw [← List.singleton_append, clean_sep_prefix ['/'] _ '/' h1, clean_sep_suffix s ['/'] '/' h1]

/-- C19. For strings `s` and `t` that are not blank, have no space and have the
same sequence of non-empty segments, `getValidPattern(s) = getValidPattern(t)`;
in particular `getValidPattern("/" ++ s ++ "/") = getValidPattern(s)`; and
registering `t` on a Router right after `s`, with the same method, panics: the
route already exists. -/
theorem getValidPattern_same_segments {H : Type} (s t : GoString)
    (hs : stringsTrimSpace s ≠ []) (ht : stringsTrimSpace t ≠ [])
    (hss : ' ' ∉ s) (hst : ' ' ∉ t) (hseg : pathSegments s = pathSegments t) :
    getValidPattern s = getValidPattern t ∧
    getValidPattern ('/' :: (s ++ ['/'])) = getValidPattern s ∧
    (∀ (v : Verb) (st : State H) (h h2 : H),
      ∃ st2, v.onRouter (v.onRouter st s h).state t h2
        = .panic (routeExistsMsg v.method ('/' :: stringsJoin (pathSegments s) ['/'])) st2 ∧
        st2.routesMap = (v.onRouter st s h).state.routesMap) := by
  have e1 := getValidPattern_segments s hs hss
  have e2 := getValidPattern_segments t ht hst
  rw [← hseg] at e2
  refine ⟨by rw [e1, e2], ?_, ?_⟩
  · have hsp : ' ' ∉ ('/' :: (s ++ ['/'])) := by
      intro hm
      rcases List.mem_cons.mp hm with e | e
      · exact absurd e (by decide)
      · rcases List.mem_append.mp e with e3 | e3
        · exact hss e3
        · simp at e3
    rw [getValidPattern_segments _ (stringsTrimSpace_ne_nil_of_slash _) hsp,
      pathSegments_slashes, e1]
  · intro v st h h2
    rw [Verb.onRouter_eq]
    exact routerRegister_dup v.method _ t _ h2 e2 (routerRegister_holds v.method st s _ h e1)

/-- Witness of C19: "test/" and "//test" on a fresh table, method GET. -/
theorem getValidPattern_same_segments_witness :
    getValidPattern ['t', 'e', 's', 't', '/'] = getValidPattern ['/', '/', 't', 'e', 's', 't'] ∧
    (Router.RegisterRouteGET
      (Router.RegisterRouteGET (State.init Trace) ['t', 'e', 's', 't', '/'] [0]).state
      ['/', '/', 't', 'e', 's', 't'] [1]).failed = true :=
  ⟨(getValidPattern_same_segments (H := Trace) ['t', 'e', 's', 't', '/']
      ['/', '/', 't', 'e', 's', 't'] (by decide) (by decide) (by decide) (by decide) rfl).1,
   rfl⟩

/-- C13. The request path is compared literally with the stored keys: after a
raw pattern `s` with normalised form `p` is registered with a method on a
Router over the empty table, a request for `p` with that method gets the
handler of the route, and a request for `p ++ "/"` with that method gets the
NotFound handler. -/
theorem dispatch_is_literal {H : Type} (v : Verb) (s p : GoString) (h : H) (router : Router H)
    (hp : getValidPattern s = .ok p) :
    ∃ r st route, v.onRouter (State.init H) s h = .ret r st ∧
      st.routes[r]? = some route ∧ route.handler = h ∧
      Router.getHandler st router ⟨p, v.method⟩ = .ok route.handler ∧
      Router.getHandler st router ⟨p ++ ['/'], v.method⟩ = .ok router.NotFoundHandler := by
  have hfree : GoMap.lookup (State.init H).routesMap p v.method = none := rfl
  have hne : p ++ ['/'] ≠ p := by
    intro e
    have := congrArg List.length e
    simp at this
  refine ⟨_, _,
    { handler := h, original := h, pattern := p, method := v.method,
      middlewares := Slice.nil, group := none },
    by rw [Verb.onRouter_eq]; exact routerRegister_ok v.method _ s p h hp hfree, ?_, rfl, ?_, ?_⟩
  · simp [State.init]
  · simp [Router.getHandler, GoMap.get_set_same, State.init]
  · simp only [Router.getHandler, GoMap.get_set_other _ _ _ _ hne]
    rfl

/-- Witness of C13: "/test/" is registered with GET; "/test" is served by the
route, "/test/" by the NotFound handler. -/
theorem dispatch_is_literal_witness :
    ∃ r st route, Router.RegisterRouteGET (State.init Trace) ['/', 't', 'e', 's', 't', '/'] [0]
        = .ret r st ∧
      st.routes[r]? = some route ∧ route.handler = [0] ∧
      Router.getHandler st traceRouter ⟨['/', 't', 'e', 's', 't'], MethodGet⟩
        = .ok route.handler ∧
      Router.getHandler st traceRouter ⟨['/', 't', 'e', 's', 't'] ++ ['/'], MethodGet⟩
        = .ok traceRouter.NotFoundHandler :=
  dispatch_is_literal .GET ['/', 't', 'e', 's', 't', '/'] ['/', 't', 'e', 's', 't'] [0]
    traceRouter rfl

/-- C15 (as amended). The default MethodNotAllowed fallback installed by
`NewRouter` responds with the status code 405, for every request and every
response writer on which no status was written before. -/
theorem methodNotAllowed_status (w : ResponseWriter) (request : Request)
    (hw : w.wroteHeader = false) :
    (NewRouter.MethodNotAllowedHandler w request).status = StatusMethodNotAllowed ∧
    StatusMethodNotAllowed = 405 := by
  refine ⟨?_, rfl⟩
  simp [NewRouter, methodNotAllowedHandler, httpError, ResponseWriter.WriteHeader,
    ResponseWriter.Write, hw]

/-- Witness of C15 (as amended): a fresh response writer, a PUT request for "/x". -/
theorem methodNotAllowed_status_witness :
    (NewRouter.MethodNotAllowedHandler ResponseWriter.fresh ⟨['/', 'x'], MethodPut⟩).status
      = StatusMethodNotAllowed ∧ StatusMethodNotAllowed = 405 :=
  methodNotAllowed_status ResponseWriter.fresh ⟨['/', 'x'], MethodPut⟩ rfl

/-- C15 as stated fails: on a fresh response writer the default MethodNotAllowed
fallback writes the status code 405, which is not 409; only the text of the
body reads "409 method not allowed". A PUT request for "/x", registered with
GET only, is answered through `ServeHTTP` with the status 405. -/
theorem methodNotAllowed_status_is_not_409 :
    (NewRouter.MethodNotAllowedHandler ResponseWriter.fresh ⟨['/', 'x'], MethodPut⟩).status
      = 405 ∧
    (NewRouter.MethodNotAllowedHandler ResponseWriter.fresh ⟨['/', 'x'], MethodPut⟩).status
      ≠ StatusConflict ∧
    (NewRouter.MethodNotAllowedHandler ResponseWriter.fresh ⟨['/', 'x'], MethodPut⟩).body
      = "409 method not allowed\n".toList ∧
    (match Router.ServeHTTP stHttpGet NewRouter ResponseWriter.fresh ⟨['/', 'x'], MethodPut⟩ with
      | .ok w => w.status
      | .error _ => 0) = 405 := by
  refine ⟨rfl, ?_, rfl, rfl⟩
  rw [show (NewRouter.MethodNotAllowedHandler ResponseWriter.fresh
    ⟨['/', 'x'], MethodPut⟩).status = 405 from rfl]
  decide


/-! ## Sharing between routes, and the shape of the table -/

/-- The elements a slice reads are not changed by an `append` to that slice,
when its backing array is allocated and holds its `len` elements. -/
theorem append_keeps_source {H : Type} (growCap : Nat → Nat → Nat) (s : State H) (sl : Slice)
    (m : List (H → H)) (halloc : sl.array < s.nextArray)
    (hlen : sl.len ≤ (s.arrays sl.array).length) :
    (s.append growCap sl m).2.elems sl = s.elems sl := by
  unfold State.append
  by_cases hc : sl.len + m.length ≤ sl.cap
  · simp only [hc, if_true, State.elems]
    rw [List.append_assoc, List.take_append_of_le_length (by simp [List.length_take, hlen])]
    simp [List.take_take]
  · have hne : ¬ sl.array = s.nextArray := by omega
    simp only [hc, if_false, State.elems, hne]

/-- C17, evaluated on the code: `r0` and `r1` are registered through the same
subgroup, whose chain `[M1, M2, M3]` lies in a backing array of capacity 4.
After `r0.Middleware(M4)` the chain of `r0` reads `[M1, M2, M3, M4]`. The call
`r1.Middleware(M5)` succeeds, does not touch the slice header of `r0`, and yet
the chain of `r0` then reads `[M1, M2, M3, M5]`: the append to `r1` wrote into
the array shared with `r0`. -/
theorem Middleware_changes_sibling_chain :
    (stSiblings4.routes[0]?).map (fun rt => chainLabels (stSiblings4.elems rt.middlewares))
      = some [[1], [2], [3], [4]] ∧
    (stSiblings4.routes[1]?).map (fun rt => chainLabels (stSiblings4.elems rt.middlewares))
      = some [[1], [2], [3]] ∧
    (Route.Middleware goGrowCap stSiblings4 1 [logMw 5]).failed = false ∧
    (stSiblings45.routes[0]?).map (fun rt => rt.middlewares)
      = (stSiblings4.routes[0]?).map (fun rt => rt.middlewares) ∧
    (stSiblings45.routes[0]?).map (fun rt => chainLabels (stSiblings45.elems rt.middlewares))
      = some [[1], [2], [3], [5]] ∧
    (stSiblings45.routes[0]?).map (fun rt => chainLabels (stSiblings45.elems rt.middlewares))
      ≠ (stSiblings4.routes[0]?).map (fun rt => chainLabels (stSiblings4.elems rt.middlewares)) := by
  refine ⟨rfl, rfl, rfl, rfl, rfl, ?_⟩
  rw [show (stSiblings45.routes[0]?).map
      (fun rt => chainLabels (stSiblings45.elems rt.middlewares)) = some [[1], [2], [3], [5]]
      from rfl,
    show (stSiblings4.routes[0]?).map
      (fun rt => chainLabels (stSiblings4.elems rt.middlewares)) = some [[1], [2], [3], [4]]
      from rfl]
  decide

theorem GoMap.get_single {V : Type} (m m2 : GoString) (r v : V)
    (h : ((GoMap.empty : GoMap V).set m r).get m2 = some v) : m2 = m ∧ v = r := by
  by_cases e : m2 = m
  · rw [e, GoMap.get_set_same] at h
    exact ⟨e, (Option.some.inj h).symm⟩
  · rw [GoMap.get_set_other _ _ _ _ e, GoMap.get_empty] at h
    cases h

theorem registerRoute_installs_single (t : RouteTable) (p m : GoString) (r : Nat)
    (h : (registerRoute t p m r).failed = false) :
    (registerRoute t p m r).state.get p = some ⟨[(m, r)]⟩ := by
  rcases registerRoute_cases t p m r with ⟨_, h2⟩ | ⟨_, h2⟩
  · rw [h2] at h; simp [Outcome.failed] at h
  · rw [h2]
    simp only [Outcome.state, GoMap.get_set_same]
    rfl

theorem registerRoute_keeps_single (t : RouteTable) (p m : GoString) (r : Nat)
    (h : ∀ q routes, t.get q = some routes → ∃ m2 r2, routes.entries = [(m2, r2)]) :
    ∀ q routes, (registerRoute t p m r).state.get q = some routes →
      ∃ m2 r2, routes.entries = [(m2, r2)] := by
  intro q routes hq
  rcases registerRoute_cases t p m r with ⟨_, h2⟩ | ⟨_, h2⟩
  · rw [h2] at hq
    exact h q routes hq
  · rw [h2] at hq
    simp only [Outcome.state] at hq
    by_cases e : q = p
    · rw [e, GoMap.get_set_same] at hq
      cases hq
      exact ⟨m, r, rfl⟩
    · rw [GoMap.get_set_other _ _ _ _ e] at hq
      exact h q routes hq

theorem registerSeq_keeps_single (seq : List (GoString × GoString × Nat)) (t : RouteTable)
    (h : ∀ q routes, t.get q = some routes → ∃ m2 r2, routes.entries = [(m2, r2)]) :
    ∀ q routes, (registerSeq t seq).get q = some routes →
      ∃ m2 r2, routes.entries = [(m2, r2)] := by
  induction seq generalizing t with
  | nil => exact h
  | cons c rest ih =>
    obtain ⟨p, m, r⟩ := c
    exact ih _ (registerRoute_keeps_single t p m r h)

theorem Env.tableOk_init (H : Type) : (Env.init H).TableOk := by
  refine ⟨?_, ?_⟩
  · intro p routes h
    simp [Env.init, State.init, GoMap.get, GoMap.empty] at h
  · intro p m ptr h
    simp [Env.init, State.init, GoMap.lookup, GoMap.get, GoMap.empty] at h

theorem Env.tableOk_register {H : Type} (e : Env H) (hinv : e.TableOk) (p m : GoString)
    (newRoute : Route H) (hpat : newRoute.pattern = p) (hmeth : newRoute.method = m) :
    Env.TableOk { e with state := { e.state with
      routes := e.state.routes ++ [newRoute]
      routesMap := e.state.routesMap.set p
        ((GoMap.empty : GoMap Nat).set m e.state.routes.length) } } := by
  obtain ⟨h1, h2⟩ := hinv
  refine ⟨?_, ?_⟩
  · intro q routes hq
    simp only at hq
    by_cases e1 : q = p
    · rw [e1, GoMap.get_set_same] at hq
      cases hq
      exact ⟨m, e.state.routes.length, rfl⟩
    · rw [GoMap.get_set_other _ _ _ _ e1] at hq
      exact h1 q routes hq
  · intro q m2 ptr hq
    simp only at hq
    by_cases e1 : q = p
    · rw [e1, GoMap.lookup_set_same] at hq
      obtain ⟨e2, e3⟩ := GoMap.get_single _ _ _ _ hq
      refine ⟨newRoute, ?_, by rw [hpat, e1], by rw [hmeth, e2]⟩
      rw [e3]
      simp
    · rw [GoMap.lookup_set_other _ _ _ _ _ e1] at hq
      obtain ⟨route, k1, k2, k3⟩ := h2 q m2 ptr hq
      refine ⟨route, ?_, k2, k3⟩
      have hlt : ptr < e.state.routes.length := by
        rcases Nat.lt_or_ge ptr e.state.routes.length with h | h
        · exact h
        · rw [List.getElem?_eq_none h] at k1; cases k1
      simp only
      rw [List.getElem?_append_left hlt]
      exact k1

theorem Env.tableOk_group {H : Type} (e : Env H) (hinv : e.TableOk) (s2 : State H)
    (groups : List GroupRoute) (hr : s2.routes = e.state.routes)
    (hm : s2.routesMap = e.state.routesMap) :
    Env.TableOk { state := s2, groups := groups } := by
  obtain ⟨h1, h2⟩ := hinv
  refine ⟨?_, ?_⟩
  · intro q routes hq
    simp only [hm] at hq
    exact h1 q routes hq
  · intro q m2 ptr hq
    simp only [hm] at hq
    simp only [hr]
    exact h2 q m2 ptr hq

theorem Call.run_tableOk {H : Type} (growCap : Nat → Nat → Nat) (e e2 : Env H)
    (c : Call H) (hinv : e.TableOk) (hrun : c.run growCap e = some e2) : e2.TableOk := by
  cases c with
  | routerRoute v pattern handler =>
    simp only [Call.run, Verb.onRouter_eq] at hrun
    cases hres : Router.RegisterRoute v.method e.state pattern handler with
    | panic msg s => simp [hres] at hrun
    | ret r s2 =>
      simp only [hres, Option.some.injEq] at hrun
      obtain ⟨p, _, _, _, hs2⟩ := routerRegister_ret _ _ _ _ _ _ hres
      rw [← hrun, hs2]
      exact Env.tableOk_register e hinv p v.method _ rfl rfl
  | newGroup pattern m =>
    simp only [Call.run, RegisterGroupRoute] at hrun
    cases hp : getValidPattern pattern with
    | error msg => simp [hp] at hrun
    | ok p =>
      simp only [hp, Option.some.injEq] at hrun
      rw [← hrun]
      exact Env.tableOk_group e hinv _ _ (variadic_frame _ _).1 (variadic_frame _ _).2
  | subGroup g pattern m =>
    simp only [Call.run] at hrun
    cases hg : e.groups[g]? with
    | none => simp [hg] at hrun
    | some gr =>
      simp only [hg] at hrun
      cases hp : getValidPattern pattern with
      | error msg => simp [GroupRoute.RegisterGroupRoute, hp] at hrun
      | ok q =>
        rw [subgroupRegister_ok growCap _ _ _ _ _ hp] at hrun
        simp only [Option.some.injEq] at hrun
        rw [← hrun]
        exact Env.tableOk_group e hinv _ _ (append_routes _ _ _ _).1 (append_routes _ _ _ _).2
  | groupRoute g v pattern handler =>
    simp only [Call.run, Verb.onGroup_eq] at hrun
    cases hg : e.groups[g]? with
    | none => simp [hg] at hrun
    | some gr =>
      simp only [hg] at hrun
      cases hres : GroupRoute.RegisterRoute v.method e.state gr pattern handler with
      | panic msg s => simp [hres] at hrun
      | ret r s2 =>
        simp only [hres, Option.some.injEq] at hrun
        obtain ⟨p, _, _, _, hs2⟩ := groupRegister_ret _ _ _ _ _ _ _ hres
        rw [← hrun, hs2]
        exact Env.tableOk_register e hinv (gr.pattern ++ p) v.method _ rfl rfl
  | middleware r m =>
    simp only [Call.run] at hrun
    cases hr : e.state.routes[r]? with
    | none => simp [Route.Middleware, hr] at hrun
    | some route =>
      obtain ⟨s2, route2, k1, k2, ⟨k3, k4⟩, _, _, k6, k7, _⟩ :=
        Middleware_spec growCap e.state r route m hr
      simp only [k1, Option.some.injEq] at hrun
      rw [← hrun]
      obtain ⟨h1, h2⟩ := hinv
      refine ⟨?_, ?_⟩
      · intro q routes hq
        simp only [k3] at hq
        exact h1 q routes hq
      · intro q m2 ptr hq
        simp only [k3] at hq
        obtain ⟨rt, j1, j2, j3⟩ := h2 q m2 ptr hq
        by_cases e1 : ptr = r
        · rw [e1] at j1
          rw [hr] at j1
          cases j1
          exact ⟨route2, by rw [e1]; exact k2, by rw [k6]; exact j2, by rw [k7]; exact j3⟩
        · refine ⟨rt, ?_, j2, j3⟩
          simp only [k4]
          rw [List.getElem?_set_ne (fun h => e1 h.symm)]
          exact j1

theorem runCalls_tableOk {H : Type} (growCap : Nat → Nat → Nat) (calls : List (Call H))
    (e e2 : Env H) (hinv : e.TableOk) (hrun : runCalls growCap e calls = some e2) :
    e2.TableOk := by
  induction calls generalizing e with
  | nil =>
    simp only [runCalls, Option.some.injEq] at hrun
    rw [← hrun]; exact hinv
  | cons c rest ih =>
    simp only [runCalls] at hrun
    cases hc : c.run growCap e with
    | none => simp [hc] at hrun
    | some e1 =>
      simp only [hc] at hrun
      exact ih e1 (Call.run_tableOk growCap e e1 c hinv hc) hrun

/-- C18. A successful `registerRoute(p, m, r)` leaves under `p` the map that
holds `m ↦ r` and nothing else; after any sequence of calls of `registerRoute`
from the empty table every entry of the table holds exactly one method; and
after any sequence of successful calls of the registration methods of Router
and of groups and of `Middleware`, from the empty table, every entry holds
exactly one method and the route stored under `(p, m)` has `Route.pattern = p`
and `Route.method = m`. -/
theorem table_single_method {H : Type} (growCap : Nat → Nat → Nat) :
    (∀ (t : RouteTable) (p m : GoString) (r : Nat), (registerRoute t p m r).failed = false →
      (registerRoute t p m r).state.get p = some ⟨[(m, r)]⟩) ∧
    (∀ (seq : List (GoString × GoString × Nat)) p routes,
      (registerSeq GoMap.empty seq).get p = some routes → ∃ m r, routes.entries = [(m, r)]) ∧
    (∀ (calls : List (Call H)) (e : Env H), runCalls growCap (Env.init H) calls = some e →
      (∀ p routes, e.state.routesMap.get p = some routes →
        ∃ m ptr, routes.entries = [(m, ptr)]) ∧
      (∀ p m ptr, GoMap.lookup e.state.routesMap p m = some ptr →
        ∃ route, e.state.routes[ptr]? = some route ∧ route.pattern = p ∧ route.method = m)) := by
  refine ⟨registerRoute_installs_single, ?_, ?_⟩
  · intro seq
    apply registerSeq_keeps_single
    intro q routes hq
    simp [GoMap.get, GoMap.empty] at hq
  · intro calls e hrun
    exact runCalls_tableOk growCap calls (Env.init H) e (Env.tableOk_init H) hrun

/-- Witness of C18: GET and then POST are registered on "/x"; the entry of "/x"
holds POST only. -/
theorem table_single_method_witness :
    (registerRoute (registerRoute GoMap.empty ['/', 'x'] MethodGet 0).state
      ['/', 'x'] MethodPost 1).state.get ['/', 'x'] = some ⟨[(MethodPost, 1)]⟩ ∧
    (∃ m r, ((GoMap.empty : GoMap Nat).set MethodPost 1).entries = [(m, r)]) :=
  ⟨(table_single_method (H := Trace) goGrowCap).1
      (registerRoute GoMap.empty ['/', 'x'] MethodGet 0).state ['/', 'x'] MethodPost 1 rfl,
   (table_single_method (H := Trace) goGrowCap).2.1
      [(['/', 'x'], MethodGet, 0), (['/', 'x'], MethodPost, 1)] ['/', 'x']
      ((GoMap.empty : GoMap Nat).set MethodPost 1) rfl⟩

end KhanRouter
